import Mathlib

/-!
# initDpdkSteps.cpp : pool sizing, port bring-up and the burst receive loop

A shallow embedding of `src/initDpdkSteps.cpp`.

* Machine integers are `Nat`/`Int` with the wrap-around written out.
* The DPDK runtime is an environment `Env` that fixes the result of every
  runtime primitive.  Each initialization primitive is issued at most once per
  argument tuple, so a result indexed by the arguments describes every
  assignment of results; the poll result is indexed by pass number and port.
* Every call of a runtime primitive and every diagnostic is appended to a
  trace of `Event`s, in program order.
* Control flow is explicit in `Ctl`: a statement falls through, terminates the
  process with a status, touches `bufs` outside its bounds, or is still
  running when the loop budget is used up.
-/

namespace FastPath

/-! ## Constants (lines 22-28) -/

/-- Number of RX queues per port. -/
def NB_RXQ : Nat := 2
/-- Number of TX queues per port. -/
def NB_TXQ : Nat := 2
/-- Descriptors in the RX ring of one queue. -/
def RX_RING_SIZE : Nat := 1024
/-- Descriptors in the TX ring of one queue. -/
def TX_RING_SIZE : Nat := 1024
/-- Capacity of the handle array and the batch size asked of a poll. -/
def BURST_SIZE : Nat := 32
/-- Per-lcore cache size of the mempool. -/
def MBUF_CACHE_SIZE : Nat := 256

/-! ## Machine integers -/

/-- Conversion to `uint16_t`. -/
def toU16 (x : Nat) : Nat := x % 65536

/-- Two's-complement wrap of a mathematical integer into `int` (32 bit). -/
def toI32 (x : Int) : Int := (x + 2147483648) % 4294967296 - 2147483648

/-- Conversion of an `int` to `uint32_t`. -/
def toU32 (x : Int) : Nat := (x % 4294967296).toNat

/-- Addition of two `uint32_t`. -/
def addU32 (a b : Nat) : Nat := (a + b) % 4294967296

/-- Product of two values of type `int` (the operands have been promoted). -/
def mulI32 (a b : Int) : Int := toI32 (a * b)

/-! ## Pool sizing (lines 32-37) -/

/-- The function `calc_num_mbufs(uint16_t nb_ports)`.  The `uint16_t` operands
are promoted to `int`, the products are computed in `int`, converted to
`uint32_t` at the initialisation, and the sum is computed in `uint32_t`. -/
def calc_num_mbufs (nb_ports : Nat) : Nat :=
  let rx_need : Nat := toU32 (mulI32 (mulI32 (nb_ports : Int) (NB_RXQ : Int)) (RX_RING_SIZE : Int))
  let tx_need : Nat := toU32 (mulI32 (mulI32 (nb_ports : Int) (NB_TXQ : Int)) (TX_RING_SIZE : Int))
  let slack : Nat := 8192
  addU32 (addU32 rx_need tx_need) slack

/-! ## The runtime environment and the trace -/

/-- A buffer handle (`rte_mbuf*`). -/
abbrev Buf := Nat

/-- A pool handle (`rte_mempool*`); `0` is `nullptr`. -/
abbrev Pool := Nat

/-- Results of the runtime primitives. -/
structure Env where
  /-- Result of `rte_eal_init`. -/
  eal_init : Int
  /-- Result of `rte_eth_dev_count_avail`. -/
  eth_dev_count_avail : Nat
  /-- Result of `rte_eth_dev_get_name_by_port(port, name)`. -/
  eth_dev_get_name_by_port : Nat → Int
  /-- Value of the DPDK constant `RTE_MBUF_DEFAULT_BUF_SIZE`. -/
  mbuf_default_buf_size : Nat
  /-- Result of `rte_socket_id`. -/
  socket_id : Nat
  /-- Result of `rte_pktmbuf_pool_create`; `0` is `nullptr`. -/
  pktmbuf_pool_create : Pool
  /-- Result of `rte_eth_dev_configure(port, ...)`. -/
  eth_dev_configure : Nat → Int
  /-- Result of `rte_eth_dev_socket_id(port)`. -/
  eth_dev_socket_id : Nat → Int
  /-- Result of `rte_eth_rx_queue_setup(port, q, ...)`. -/
  eth_rx_queue_setup : Nat → Nat → Int
  /-- Result of `rte_eth_tx_queue_setup(port, q, ...)`. -/
  eth_tx_queue_setup : Nat → Nat → Int
  /-- Result of `rte_eth_dev_start(port)`. -/
  eth_dev_start : Nat → Int
  /-- Result of `rte_lcore_id`. -/
  lcore_id : Nat
  /-- Handles that `rte_eth_rx_burst` supplies in pass `k` on `port`, in ring
  order; the call returns their number. -/
  eth_rx_burst : Nat → Nat → List Buf

/-- Diagnostics written to `stderr`. -/
inductive Diag
  | eal_init_failed
  | no_ports
  | pool_create_failed
  | configure_failed (port : Nat) (rc : Int)
  | rx_queue_setup_failed (port q : Nat) (rc : Int)
  | tx_queue_setup_failed (port q : Nat) (rc : Int)
  | start_failed (port : Nat) (rc : Int)
  deriving DecidableEq, Repr

/-- Messages written to `stdout`. -/
inductive Msg
  | sees_ports (nb_ports : Nat)
  | port_name (port : Nat) (known : Bool)
  | created_mempool (n data_room : Nat)
  | port_started (port nb_rxq nb_txq : Nat)
  | entering_rx_loop (lcore : Nat)
  deriving DecidableEq, Repr

/-- One observable step of the program: a call of a runtime primitive with its
arguments, or a message.  Arguments that are the same in every call are left
out: the pool name, `port_conf` (zero-initialised, `mq_mode = RTE_ETH_MQ_RX_RSS`),
the null queue configurations, and the address of `bufs`. -/
inductive Event
  | eal_init
  | eth_dev_count_avail
  | eth_dev_get_name_by_port (port : Nat)
  | socket_id
  | pktmbuf_pool_create (n cache_size priv_size data_room_size socket : Nat)
  | eth_dev_configure (port nb_rxq nb_txq : Nat)
  | eth_dev_socket_id (port : Nat)
  | eth_rx_queue_setup (port q nb_desc : Nat) (socket : Int) (pool : Pool)
  | eth_tx_queue_setup (port q nb_desc : Nat) (socket : Int)
  | eth_dev_start (port : Nat)
  | eth_promiscuous_enable (port : Nat)
  | lcore_id
  | eth_rx_burst (port queue nb_pkts : Nat)
  | pktmbuf_free (m : Buf)
  | stderr (d : Diag)
  | stdout (m : Msg)
  deriving DecidableEq, Repr

/-- Where control is after a statement. -/
inductive Ctl (σ : Type)
  /-- The statement completed and control falls through. -/
  | next (s : σ)
  /-- The process terminated with a status (`std::exit` or `return` in `main`). -/
  | exit (code : Int) (s : σ)
  /-- The handle array was read outside its bounds or before it was written. -/
  | fault (s : σ)
  /-- The loop budget is used up and the program is still running. -/
  | timeout (s : σ)
  deriving DecidableEq, Repr

/-- The state a control result carries. -/
def Ctl.state {σ : Type} : Ctl σ → σ
  | .next s => s
  | .exit _ s => s
  | .fault s => s
  | .timeout s => s

/-- Change of the carried state. -/
def Ctl.map {σ τ : Type} (f : σ → τ) : Ctl σ → Ctl τ
  | .next s => .next (f s)
  | .exit c s => .exit c (f s)
  | .fault s => .fault (f s)
  | .timeout s => .timeout (f s)

/-! ## Loops -/

/-- The loop `for (uint16_t i = i0; i < n; i++) body`, with the increment
wrapping at 16 bits.  One unit of `fuel` is used per evaluation of the loop
condition. -/
def forU16 {σ : Type} (n : Nat) (body : Nat → σ → Ctl σ) : Nat → Nat → σ → Ctl σ
  | 0, _, s => .timeout s
  | fuel + 1, i, s =>
    if i < n then
      match body i s with
      | .next s' => forU16 n body fuel (toU16 (i + 1)) s'
      | c => c
    else .next s

/-- The loop `while (cond) body`; `k` counts the passes made so far. -/
def whileLoop {σ : Type} (cond : σ → Bool) (body : Nat → σ → Ctl σ) : Nat → Nat → σ → Ctl σ
  | 0, _, s => .timeout s
  | passes + 1, k, s =>
    if cond s then
      match body k s with
      | .next s' => whileLoop cond body passes (k + 1) s'
      | c => c
    else .next s

/-! ## Port bring-up (lines 39-96) -/

/-- The function `port_init(port_id, mbuf_pool)`, acting on the trace. -/
def port_init (fuel : Nat) (env : Env) (port_id : Nat) (mbuf_pool : Pool)
    (tr : List Event) : Ctl (List Event) :=
  -- 1) configure
  let rc := env.eth_dev_configure port_id
  let tr := tr ++ [Event.eth_dev_configure port_id NB_RXQ NB_TXQ]
  if rc < 0 then
    .exit 1 (tr ++ [Event.stderr (Diag.configure_failed port_id rc)])
  else
    let socket_id := env.eth_dev_socket_id port_id
    let tr := tr ++ [Event.eth_dev_socket_id port_id]
    -- 2) RX queues
    let rxLoop := forU16 NB_RXQ (fun q tr =>
      let rc := env.eth_rx_queue_setup port_id q
      let tr := tr ++ [Event.eth_rx_queue_setup port_id q RX_RING_SIZE socket_id mbuf_pool]
      if rc < 0 then
        .exit 1 (tr ++ [Event.stderr (Diag.rx_queue_setup_failed port_id q rc)])
      else .next tr) fuel 0 tr
    match rxLoop with
    | .next tr =>
      -- 3) TX queues
      let txLoop := forU16 NB_TXQ (fun q tr =>
        let rc := env.eth_tx_queue_setup port_id q
        let tr := tr ++ [Event.eth_tx_queue_setup port_id q TX_RING_SIZE socket_id]
        if rc < 0 then
          .exit 1 (tr ++ [Event.stderr (Diag.tx_queue_setup_failed port_id q rc)])
        else .next tr) fuel 0 tr
      match txLoop with
      | .next tr =>
        -- 4) start
        let rc := env.eth_dev_start port_id
        let tr := tr ++ [Event.eth_dev_start port_id]
        if rc < 0 then
          .exit 1 (tr ++ [Event.stderr (Diag.start_failed port_id rc)])
        else
          .next (tr ++ [Event.eth_promiscuous_enable port_id])
      | c => c
    | c => c

/-! ## The receive loop (lines 163-180) -/

/-- State of the receive loop: the trace and the local array
`rte_mbuf* bufs[BURST_SIZE]`.  A slot is `none` until it has been written. -/
structure St where
  trace : List Event
  bufs : List (Option Buf)
  deriving DecidableEq, Repr

/-- Effect of `rte_eth_rx_burst` on the array: the supplied handles are stored
from slot 0 on; the array keeps its capacity. -/
def storeBatch (batch : List Buf) (bufs : List (Option Buf)) : List (Option Buf) :=
  (batch.map some ++ bufs.drop batch.length).take bufs.length

/-- Body of the inner loop (lines 171-177): read `bufs[i]`, release it. -/
def rx_free (i : Nat) (s : St) : Ctl St :=
  match s.bufs[i]? with
  | some (some m) => .next { s with trace := s.trace ++ [Event.pktmbuf_free m] }
  | _ => .fault s

/-- Body of the port loop (lines 167-178) in pass `k`. -/
def rx_port (fuel : Nat) (env : Env) (k : Nat) (port_id : Nat) (s : St) : Ctl St :=
  let batch := env.eth_rx_burst k port_id
  let nb_rx := toU16 batch.length
  let s : St :=
    { trace := s.trace ++ [Event.eth_rx_burst port_id 0 BURST_SIZE]
      bufs := storeBatch batch s.bufs }
  if nb_rx = 0 then .next s
  else forU16 nb_rx rx_free fuel 0 s

/-- One pass of the receive loop (lines 166-179). -/
def rx_pass (fuel : Nat) (env : Env) (nb_ports : Nat) (k : Nat) (s : St) : Ctl St :=
  forU16 nb_ports (rx_port fuel env k) fuel 0 s

/-! ## The program (lines 98-184) -/

/-- The number of ports as `main` stores it (`const uint16_t nb_ports`). -/
def nbPorts (env : Env) : Nat := toU16 env.eth_dev_count_avail

/-- Lines 102-161 of `main`: everything before the receive loop.  The shift
of `argc`/`argv` (lines 109-110) has no later use and is left out; the text of
`rte_strerror` is represented by the result code in the diagnostic. -/
def main_init (fuel : Nat) (env : Env) : Ctl (List Event) :=
  let rc := env.eal_init
  let tr := [Event.eal_init]
  if rc < 0 then
    .exit 1 (tr ++ [Event.stderr Diag.eal_init_failed])
  else
    let nb_ports := nbPorts env
    let tr := tr ++ [Event.eth_dev_count_avail]
    if nb_ports = 0 then
      .exit 1 (tr ++ [Event.stderr Diag.no_ports])
    else
      let tr := tr ++ [Event.stdout (Msg.sees_ports nb_ports)]
      let names := forU16 nb_ports (fun port_id tr =>
        .next (tr ++ [Event.eth_dev_get_name_by_port port_id,
          Event.stdout (Msg.port_name port_id (env.eth_dev_get_name_by_port port_id == 0))]))
        fuel 0 tr
      match names with
      | .next tr =>
        let NUM_MBUFS := calc_num_mbufs nb_ports
        let DATA_ROOM_SIZE := toU16 env.mbuf_default_buf_size
        let mbuf_pool := env.pktmbuf_pool_create
        let tr := tr ++ [Event.socket_id,
          Event.pktmbuf_pool_create NUM_MBUFS MBUF_CACHE_SIZE 0 DATA_ROOM_SIZE env.socket_id]
        if mbuf_pool = 0 then
          .exit 1 (tr ++ [Event.stderr Diag.pool_create_failed])
        else
          let tr := tr ++ [Event.stdout (Msg.created_mempool NUM_MBUFS DATA_ROOM_SIZE)]
          let ports := forU16 nb_ports (fun port_id tr =>
            match port_init fuel env port_id mbuf_pool tr with
            | .next tr => .next (tr ++ [Event.stdout (Msg.port_started port_id NB_RXQ NB_TXQ)])
            | c => c) fuel 0 tr
          match ports with
          | .next tr =>
            .next (tr ++ [Event.lcore_id, Event.stdout (Msg.entering_rx_loop env.lcore_id)])
          | c => c
      | c => c

/-- The array `bufs` as declared at line 163: `BURST_SIZE` slots, none written. -/
def bufs0 : List (Option Buf) := List.replicate BURST_SIZE none

/-- The function `main`: initialization, then `while (true)` over the passes,
then the `return 0` behind the loop.  `fuel` bounds every `for` loop and
`passes` the `while` loop. -/
def main (fuel passes : Nat) (env : Env) : Ctl (List Event) :=
  match main_init fuel env with
  | .next tr =>
    match whileLoop (fun _ => true) (rx_pass fuel env (nbPorts env)) passes 0
        { trace := tr, bufs := bufs0 } with
    | .next s => .exit 0 s.trace
    | c => c.map St.trace
  | c => c

/-! ## Sample environments -/

/-- An environment with two ports in which every primitive succeeds; port 0
delivers three buffers per pass, port 1 none. -/
def envOK : Env where
  eal_init := 0
  eth_dev_count_avail := 2
  eth_dev_get_name_by_port := fun _ => 0
  mbuf_default_buf_size := 2176
  socket_id := 0
  pktmbuf_pool_create := 1
  eth_dev_configure := fun _ => 0
  eth_dev_socket_id := fun _ => 0
  eth_rx_queue_setup := fun _ _ => 0
  eth_tx_queue_setup := fun _ _ => 0
  eth_dev_start := fun _ => 0
  lcore_id := 0
  eth_rx_burst := fun k p => if p = 0 then [3 * k + 1, 3 * k + 2, 3 * k + 3] else []

/-! ## Auxiliary definitions for the proofs -/

/-- Sequencing of `body` over a list of indices, leaving at the first result
that does not fall through: what a counting loop computes. -/
def seqCtl {σ : Type} (body : Nat → σ → Ctl σ) : List Nat → σ → Ctl σ
  | [], s => .next s
  | i :: is, s =>
    match body i s with
    | .next s' => seqCtl body is s'
    | c => c

/-- The result code that the environment gives a bring-up primitive. -/
def rcOf (env : Env) : Event → Int
  | .eth_dev_configure p _ _ => env.eth_dev_configure p
  | .eth_rx_queue_setup p q _ _ _ => env.eth_rx_queue_setup p q
  | .eth_tx_queue_setup p q _ _ => env.eth_tx_queue_setup p q
  | .eth_dev_start p => env.eth_dev_start p
  | _ => 0

/-- Whether the call recorded by an event reported a failure that `main` or
`port_init` checks for: a negative result, zero ports, a null pool. -/
def failed (env : Env) : Event → Bool
  | .eal_init => decide (env.eal_init < 0)
  | .eth_dev_count_avail => decide (nbPorts env = 0)
  | .pktmbuf_pool_create _ _ _ _ _ => decide (env.pktmbuf_pool_create = 0)
  | e => decide (rcOf env e < 0)

/-- The diagnostic printed when the call recorded by an event has failed. -/
def diagOf (env : Env) : Event → Diag
  | .eth_dev_count_avail => .no_ports
  | .pktmbuf_pool_create _ _ _ _ _ => .pool_create_failed
  | .eth_dev_configure p _ _ => .configure_failed p (env.eth_dev_configure p)
  | .eth_rx_queue_setup p q _ _ _ => .rx_queue_setup_failed p q (env.eth_rx_queue_setup p q)
  | .eth_tx_queue_setup p q _ _ => .tx_queue_setup_failed p q (env.eth_tx_queue_setup p q)
  | .eth_dev_start p => .start_failed p (env.eth_dev_start p)
  | _ => .eal_init_failed

/-- A list of steps cut after the first failed one, which is followed by its
diagnostic. -/
def cutAtFail (env : Env) : List Event → List Event
  | [] => []
  | e :: es => if failed env e then [e, .stderr (diagOf env e)] else e :: cutAtFail env es

/-- Straight-line execution of a list of checked steps: all of them when
none fails, else up to the first failure, its diagnostic, and exit status 1. -/
def runSteps (env : Env) (steps : List Event) (tr : List Event) : Ctl (List Event) :=
  if steps.all (fun e => !failed env e) then .next (tr ++ steps)
  else .exit 1 (tr ++ cutAtFail env steps)

/-- Every step of `port_init` on port `p`, in program order. -/
def portSteps (env : Env) (pool : Pool) (p : Nat) : List Event :=
  [Event.eth_dev_configure p NB_RXQ NB_TXQ, Event.eth_dev_socket_id p]
    ++ (List.range NB_RXQ).map (fun q =>
        Event.eth_rx_queue_setup p q RX_RING_SIZE (env.eth_dev_socket_id p) pool)
    ++ (List.range NB_TXQ).map (fun q =>
        Event.eth_tx_queue_setup p q TX_RING_SIZE (env.eth_dev_socket_id p))
    ++ [Event.eth_dev_start p, Event.eth_promiscuous_enable p]

/-- The steps of the name-listing loop for port `p` (lines 120-127). -/
def nameSteps (env : Env) (p : Nat) : List Event :=
  [Event.eth_dev_get_name_by_port p,
    Event.stdout (Msg.port_name p (env.eth_dev_get_name_by_port p == 0))]

/-- The steps of the bring-up loop for port `p` (lines 153-156). -/
def portBlock (env : Env) (pool : Pool) (p : Nat) : List Event :=
  portSteps env pool p ++ [Event.stdout (Msg.port_started p NB_RXQ NB_TXQ)]

/-- Every step of the initialization of `main`, in program order. -/
def initSteps (env : Env) : List Event :=
  [Event.eal_init, Event.eth_dev_count_avail, Event.stdout (Msg.sees_ports (nbPorts env))]
    ++ (List.range (nbPorts env)).flatMap (nameSteps env)
    ++ [Event.socket_id,
        Event.pktmbuf_pool_create (calc_num_mbufs (nbPorts env)) MBUF_CACHE_SIZE 0
          (toU16 env.mbuf_default_buf_size) env.socket_id,
        Event.stdout (Msg.created_mempool (calc_num_mbufs (nbPorts env))
          (toU16 env.mbuf_default_buf_size))]
    ++ (List.range (nbPorts env)).flatMap (portBlock env env.pktmbuf_pool_create)
    ++ [Event.lcore_id, Event.stdout (Msg.entering_rx_loop env.lcore_id)]

/-- Whether an event is a bring-up primitive of section 4.2: configure, a
queue setup, or start. -/
def isBringUp : Event → Bool
  | .eth_dev_configure _ _ _ => true
  | .eth_rx_queue_setup _ _ _ _ _ => true
  | .eth_tx_queue_setup _ _ _ _ => true
  | .eth_dev_start _ => true
  | _ => false

/-- A list of primitives cut immediately after the first one whose result is
negative. -/
def cutAfterNeg (env : Env) : List Event → List Event
  | [] => []
  | e :: es => if rcOf env e < 0 then [e] else e :: cutAfterNeg env es

/-- The canonical bring-up sequence of one port: configure, the receive
queues in increasing order, the transmit queues in increasing order, start. -/
def canonical (port : Nat) (socket : Int) (pool : Pool) : List Event :=
  [Event.eth_dev_configure port NB_RXQ NB_TXQ]
    ++ (List.range NB_RXQ).map (fun q => Event.eth_rx_queue_setup port q RX_RING_SIZE socket pool)
    ++ (List.range NB_TXQ).map (fun q => Event.eth_tx_queue_setup port q TX_RING_SIZE socket)
    ++ [Event.eth_dev_start port]

/-- Whether an event is a poll (`rte_eth_rx_burst`). -/
def isPoll : Event → Bool
  | .eth_rx_burst _ _ _ => true
  | _ => false

/-- Every bring-up primitive of port `p` returns a non-negative result. -/
def portOK (env : Env) (p : Nat) : Prop :=
  0 ≤ env.eth_dev_configure p
  ∧ (∀ q, q < NB_RXQ → 0 ≤ env.eth_rx_queue_setup p q)
  ∧ (∀ q, q < NB_TXQ → 0 ≤ env.eth_tx_queue_setup p q)
  ∧ 0 ≤ env.eth_dev_start p

/-- Every initialization primitive succeeds: environment init, a non-zero port
count, a non-null pool, and the bring-up of every port. -/
def initOK (env : Env) : Prop :=
  0 ≤ env.eal_init ∧ nbPorts env ≠ 0 ∧ env.pktmbuf_pool_create ≠ 0
  ∧ ∀ p, p < nbPorts env → portOK env p

/-- The events of the per-port step of pass `k`: the poll, then one release per
supplied handle, in the order supplied. -/
def portEvents (env : Env) (k p : Nat) : List Event :=
  Event.eth_rx_burst p 0 BURST_SIZE :: (env.eth_rx_burst k p).map Event.pktmbuf_free

/-- The events of pass `k` over `n` ports. -/
def passEvents (env : Env) (n k : Nat) : List Event :=
  (List.range n).flatMap (portEvents env k)

/-- Whether an event belongs to the receive loop: a poll of queue 0 for
`BURST_SIZE` handles, or a release. -/
def isRxLoopEvent : Event → Bool
  | .eth_rx_burst _ q n => q == 0 && n == BURST_SIZE
  | .pktmbuf_free _ => true
  | _ => false

/-- The trace of a result extends `tr0` by events that satisfy `P`. -/
def Grows (P : Event → Bool) (tr0 : List Event) (c : Ctl St) : Prop :=
  ∃ added, c.state.trace = tr0 ++ added ∧ ∀ e ∈ added, P e = true

/-- Whether an event is a start of a port. -/
def isStart : Event → Bool
  | .eth_dev_start _ => true
  | _ => false

/-- Whether an event is a diagnostic on `stderr`. -/
def isStderr : Event → Bool
  | .stderr _ => true
  | _ => false

/-- Two ports; every primitive succeeds except configure on port 1, which
returns -1. -/
def envRej : Env :=
  { envOK with eth_dev_configure := fun p => if p = 1 then -1 else 0 }

/-- The handles released by a stretch of trace, in order. -/
def releases : List Event → List Buf
  | [] => []
  | .pktmbuf_free m :: es => m :: releases es
  | _ :: es => releases es

/-- The handles supplied by the polls of pass `k` over `n` ports: the batches
in increasing port order, each in the order supplied. -/
def handed (env : Env) (n k : Nat) : List Buf :=
  (List.range n).flatMap (env.eth_rx_burst k)

/-- Modelled from the spec: the pool accounting of the closed simulation of
sections 4.1 and 8, which the source leaves to the DPDK library.  Every one of
the `N` buffers is either free or in flight. -/
structure PoolAcct where
  free : List Buf
  inflight : List Buf
  deriving DecidableEq, Repr

/-- Modelled from the spec: `release(buffer)` of section 4.1.  The buffer
moves from in flight to free; releasing a buffer that is not in flight is the
contract violation `DoubleRelease`. -/
def PoolAcct.release (a : PoolAcct) (b : Buf) : Option PoolAcct :=
  if b ∈ a.inflight then some { free := b :: a.free, inflight := a.inflight.erase b }
  else none

/-- Modelled from the spec: the releases of a stretch of trace applied to the
pool accounting, in order. -/
def PoolAcct.releaseAll (a : PoolAcct) : List Buf → Option PoolAcct
  | [] => some a
  | b :: bs =>
    match a.release b with
    | some a' => a'.releaseAll bs
    | none => none

/-- A control result that is not a process exit. -/
def Ctl.noExit {σ : Type} : Ctl σ → Prop
  | .exit _ _ => False
  | _ => True

/-- A control result that, when it is a process exit, has status 1. -/
def Ctl.exitsOne {σ : Type} : Ctl σ → Prop
  | .exit c _ => c = 1
  | _ => True

/-- Whether an event is a pool creation. -/
def isPoolCreate : Event → Bool
  | .pktmbuf_pool_create _ _ _ _ _ => true
  | _ => false

/-- Two ports; environment initialization fails. -/
def envNoEal : Env := { envOK with eal_init := -1 }



/-! ## Loop lemmas -/

/-- A counting loop whose bound fits 16 bits never wraps its counter: with a
budget above the number of remaining iterations it runs the body over
`i, i+1, ..., n-1`. -/
theorem forU16_eq_seqCtl {σ : Type} (n : Nat) (body : Nat → σ → Ctl σ) (hn : n ≤ 65535) :
    ∀ (fuel i : Nat) (s : σ), i ≤ n → n - i < fuel →
      forU16 n body fuel i s = seqCtl body (List.range' i (n - i)) s := by
  intro fuel
  induction fuel with
  | zero => intro i s _ h; omega
  | succ fuel ih =>
    intro i s hi hf
    by_cases hlt : i < n
    · obtain ⟨m, hm⟩ : ∃ m, n - i = m + 1 := ⟨n - i - 1, by omega⟩
      have hw : toU16 (i + 1) = i + 1 := by unfold toU16; omega
      have hm' : n - (i + 1) = m := by omega
      rw [hm, List.range'_succ]
      simp only [forU16, hlt, if_true, seqCtl, hw]
      cases hb : body i s with
      | next s' =>
        simp only []
        rw [ih (i + 1) s' (by omega) (by omega), hm']
      | exit c s' => rfl
      | fault s' => rfl
      | timeout s' => rfl
    · have h0 : n - i = 0 := by omega
      simp [forU16, hlt, h0, seqCtl]

/-- The loop from 0 runs the body over `0, ..., n-1`. -/
theorem forU16_eq_range {σ : Type} (n : Nat) (body : Nat → σ → Ctl σ) (hn : n ≤ 65535)
    (fuel : Nat) (s : σ) (hf : n < fuel) :
    forU16 n body fuel 0 s = seqCtl body (List.range n) s := by
  rw [forU16_eq_seqCtl n body hn fuel 0 s (Nat.zero_le _) (by omega), List.range_eq_range']
  simp

/-- Invariant rule for `forU16`, valid for every budget. -/
theorem forU16_inv {σ : Type} (Q : Ctl σ → Prop) (n : Nat) (body : Nat → σ → Ctl σ)
    (hbody : ∀ i s, Q (.next s) → Q (body i s))
    (htime : ∀ s, Q (.next s) → Q (.timeout s)) :
    ∀ (fuel i : Nat) (s : σ), Q (.next s) → Q (forU16 n body fuel i s) := by
  intro fuel
  induction fuel with
  | zero => intro i s h; exact htime s h
  | succ fuel ih =>
    intro i s h
    simp only [forU16]
    split
    · have hb := hbody i s h
      cases hc : body i s with
      | next s' => rw [hc] at hb; exact ih _ s' hb
      | exit c s' => rw [hc] at hb; exact hb
      | fault s' => rw [hc] at hb; exact hb
      | timeout s' => rw [hc] at hb; exact hb
    · exact h

/-- Invariant rule for `whileLoop`, valid for every budget. -/
theorem whileLoop_inv {σ : Type} (Q : Ctl σ → Prop) (cond : σ → Bool) (body : Nat → σ → Ctl σ)
    (hbody : ∀ k s, Q (.next s) → Q (body k s))
    (htime : ∀ s, Q (.next s) → Q (.timeout s)) :
    ∀ (passes k : Nat) (s : σ), Q (.next s) → Q (whileLoop cond body passes k s) := by
  intro passes
  induction passes with
  | zero => intro k s h; exact htime s h
  | succ passes ih =>
    intro k s h
    simp only [whileLoop]
    split
    · have hb := hbody k s h
      cases hc : body k s with
      | next s' => rw [hc] at hb; exact ih _ s' hb
      | exit c s' => rw [hc] at hb; exact hb
      | fault s' => rw [hc] at hb; exact hb
      | timeout s' => rw [hc] at hb; exact hb
    · exact h

/-! ## Initialization as a checked straight-line sequence -/

theorem runSteps_nil (env : Env) (tr : List Event) : runSteps env [] tr = .next tr := by
  simp [runSteps]

theorem runSteps_cons (env : Env) (e : Event) (es tr : List Event) :
    runSteps env (e :: es) tr =
      if failed env e then .exit 1 (tr ++ [e, .stderr (diagOf env e)])
      else runSteps env es (tr ++ [e]) := by
  by_cases h : failed env e = true
  · simp [runSteps, h, cutAtFail]
  · simp only [Bool.not_eq_true] at h
    by_cases h2 : es.all (fun e => !failed env e) = true
    · simp [runSteps, h, h2, cutAtFail]
    · have : ∃ x ∈ es, failed env x = true := by simpa using h2
      simp [runSteps, h, h2, cutAtFail, this]

theorem runSteps_append (env : Env) (a b tr : List Event) :
    runSteps env (a ++ b) tr =
      match runSteps env a tr with
      | .next tr' => runSteps env b tr'
      | c => c := by
  induction a generalizing tr with
  | nil => simp [runSteps_nil]
  | cons e es ih =>
    simp only [List.cons_append, runSteps_cons]
    by_cases h : failed env e = true
    · simp [h]
    · simp only [h]
      exact ih _

/-- The function `port_init` runs its steps in order up to the first failure. -/
theorem port_init_eq (env : Env) (p pool : Nat) (tr : List Event) (fuel : Nat) (hf : 3 ≤ fuel) :
    port_init fuel env p pool tr = runSteps env (portSteps env pool p) tr := by
  obtain ⟨f, rfl⟩ : ∃ f, fuel = f + 3 := ⟨fuel - 3, by omega⟩
  simp only [portSteps, NB_RXQ, NB_TXQ, List.range_succ, List.range_zero, List.map, List.nil_append,
    List.cons_append, List.map_append, runSteps_cons, runSteps_nil, failed, rcOf, decide_eq_true_eq,
    port_init, forU16, toU16]
  by_cases h1 : env.eth_dev_configure p < 0 <;>
  by_cases h2 : env.eth_rx_queue_setup p 0 < 0 <;>
  by_cases h3 : env.eth_rx_queue_setup p 1 < 0 <;>
  by_cases h4 : env.eth_tx_queue_setup p 0 < 0 <;>
  by_cases h5 : env.eth_tx_queue_setup p 1 < 0 <;>
  by_cases h6 : env.eth_dev_start p < 0 <;>
  simp [h1, h2, h3, h4, h5, h6, diagOf]

theorem seqCtl_runSteps (env : Env) (blk : Nat → List Event) (l : List Nat) (tr : List Event) :
    seqCtl (fun i tr => runSteps env (blk i) tr) l tr = runSteps env (l.flatMap blk) tr := by
  induction l generalizing tr with
  | nil => simp [seqCtl, runSteps_nil]
  | cons i l ih =>
    simp only [seqCtl, List.flatMap_cons, runSteps_append]
    cases h : runSteps env (blk i) tr with
    | next tr' => simp only []; exact ih tr'
    | exit c tr' => rfl
    | fault tr' => rfl
    | timeout tr' => rfl

theorem nbPorts_le (env : Env) : nbPorts env ≤ 65535 := by
  unfold nbPorts toU16; omega

theorem runSteps_of_all (env : Env) (steps tr : List Event)
    (h : ∀ e ∈ steps, failed env e = false) : runSteps env steps tr = .next (tr ++ steps) := by
  have : steps.all (fun e => !failed env e) = true := by simpa using h
  simp [runSteps, this]

theorem nameSteps_ok (env : Env) (l : List Nat) :
    ∀ e ∈ l.flatMap (nameSteps env), failed env e = false := by
  intro e he
  simp only [List.mem_flatMap, nameSteps] at he
  obtain ⟨p, -, hp⟩ := he
  simp at hp
  rcases hp with rfl | rfl <;> simp [failed, rcOf]

theorem seqCtl_congr {σ : Type} (body body' : Nat → σ → Ctl σ)
    (h : ∀ i s, body i s = body' i s) (l : List Nat) (s : σ) :
    seqCtl body l s = seqCtl body' l s := by
  have : body = body' := by funext i s; exact h i s
  rw [this]

/-- The initialization of `main` runs `initSteps` in order up to the first
failure. -/
theorem main_init_eq (env : Env) (fuel : Nat) (hf : nbPorts env < fuel) (hf3 : 3 ≤ fuel) :
    main_init fuel env = runSteps env (initSteps env) [] := by
  have hnames : (fun (port_id : Nat) (tr : List Event) =>
      (Ctl.next (tr ++ [Event.eth_dev_get_name_by_port port_id,
        Event.stdout (Msg.port_name port_id (env.eth_dev_get_name_by_port port_id == 0))]) :
        Ctl (List Event)))
      = fun i tr => runSteps env (nameSteps env i) tr := by
    funext i tr
    simp [nameSteps, runSteps_cons, runSteps_nil, failed, rcOf]
  have htail : ∀ r r' : Ctl (List Event), r = r' →
      (match r with
        | .next tr => Ctl.next (tr ++ [Event.lcore_id,
            Event.stdout (Msg.entering_rx_loop env.lcore_id)])
        | c => c)
      = (match r' with
        | .next tr => runSteps env [Event.lcore_id,
            Event.stdout (Msg.entering_rx_loop env.lcore_id)] tr
        | c => c) := by
    intro r r' h
    subst h
    cases r <;> simp [runSteps_cons, runSteps_nil, failed, rcOf]
  unfold main_init
  simp only []
  simp only [hnames, forU16_eq_range _ _ (nbPorts_le env) fuel _ hf, seqCtl_runSteps]
  simp only [initSteps, List.append_assoc, List.cons_append, List.nil_append, runSteps_cons,
    failed, rcOf, decide_eq_true_eq, diagOf]
  by_cases h1 : env.eal_init < 0
  · simp [h1]
  by_cases h2 : nbPorts env = 0
  · simp [h1, h2]
  simp only [h1, h2, if_false]
  simp only [lt_self_iff_false, decide_False, Bool.false_eq_true, if_false]
  rw [runSteps_append]
  simp only [runSteps_of_all env _ _ (nameSteps_ok env _)]
  simp only [runSteps_cons, failed, rcOf, decide_eq_true_eq, diagOf, lt_self_iff_false,
    decide_False, Bool.false_eq_true, if_false]
  by_cases h3 : env.pktmbuf_pool_create = 0
  · simp [h3]
  simp only [h3, if_false, List.append_assoc, List.cons_append, List.nil_append]
  rw [runSteps_append]
  refine htail _ _ ?_
  rw [← seqCtl_runSteps]
  apply seqCtl_congr
  intro i tr
  rw [port_init_eq env i _ tr fuel hf3, portBlock, runSteps_append]
  cases h : runSteps env (portSteps env env.pktmbuf_pool_create i) tr with
  | next tr' => simp [runSteps_cons, runSteps_nil, failed, rcOf]
  | exit c tr' => rfl
  | fault tr' => rfl
  | timeout tr' => rfl

theorem cutAtFail_of_all (env : Env) (steps : List Event)
    (h : ∀ e ∈ steps, failed env e = false) : cutAtFail env steps = steps := by
  induction steps with
  | nil => rfl
  | cons e es ih =>
    have he := h e (List.mem_cons_self _ _)
    simp [cutAtFail, he, ih (fun x hx => h x (List.mem_cons_of_mem _ hx))]

theorem runSteps_state (env : Env) (steps tr : List Event) :
    (runSteps env steps tr).state = tr ++ cutAtFail env steps := by
  by_cases h : steps.all (fun e => !failed env e) = true
  · have h' : ∀ e ∈ steps, failed env e = false := by simpa using h
    simp [runSteps, h, Ctl.state, cutAtFail_of_all env steps h']
  · simp [runSteps, h, Ctl.state]

theorem cutAtFail_split (env : Env) (steps : List Event)
    (h : ∃ e ∈ steps, failed env e = true) :
    ∃ pre c, cutAtFail env steps = pre ++ [c, .stderr (diagOf env c)]
      ∧ failed env c = true ∧ (∀ e ∈ pre, failed env e = false)
      ∧ (∀ e ∈ pre ++ [c], e ∈ steps) := by
  induction steps with
  | nil => simp at h
  | cons e es ih =>
    by_cases he : failed env e = true
    · exact ⟨[], e, by simp [cutAtFail, he], he, by simp, by simp⟩
    · simp only [Bool.not_eq_true] at he
      have h' : ∃ x ∈ es, failed env x = true := by
        obtain ⟨x, hx, hx2⟩ := h
        rcases List.mem_cons.mp hx with rfl | hx
        · rw [he] at hx2; cases hx2
        · exact ⟨x, hx, hx2⟩
      obtain ⟨pre, c, h1, h2, h3, h4⟩ := ih h'
      refine ⟨e :: pre, c, by simp [cutAtFail, he, h1], h2, ?_, ?_⟩
      · intro x hx
        rcases List.mem_cons.mp hx with rfl | hx
        · exact he
        · exact h3 x hx
      · intro x hx
        simp only [List.cons_append, List.mem_cons] at hx
        rcases hx with rfl | hx
        · exact List.mem_cons_self _ _
        · exact List.mem_cons_of_mem _ (h4 x hx)

theorem portSteps_ok_iff (env : Env) (pool : Pool) (p : Nat) :
    (∀ e ∈ portBlock env pool p, failed env e = false) ↔ portOK env p := by
  simp only [portBlock, portSteps, portOK, NB_RXQ, NB_TXQ, List.range_succ, List.range_zero,
    List.map, List.nil_append, List.cons_append, List.map_append, List.mem_cons,
    forall_eq_or_imp, failed, rcOf, List.mem_singleton, forall_eq, List.not_mem_nil]
  simp only [decide_eq_false_iff_not, not_lt]
  constructor
  · rintro ⟨h1, -, h2, h3, h4, h5, h6, -⟩
    refine ⟨h1, ?_, ?_, h6⟩
    · intro q hq
      obtain rfl | rfl : q = 0 ∨ q = 1 := by omega
      · exact h2
      · exact h3
    · intro q hq
      obtain rfl | rfl : q = 0 ∨ q = 1 := by omega
      · exact h4
      · exact h5
  · rintro ⟨h1, h2, h3, h4⟩
    simp [h1, h2 0, h2 1, h3 0, h3 1, h4]

theorem initSteps_ok_iff (env : Env) :
    (∀ e ∈ initSteps env, failed env e = false) ↔ initOK env := by
  simp only [initSteps, List.mem_append, List.mem_flatMap, List.mem_range, or_imp, forall_and]
  constructor
  · rintro ⟨⟨⟨⟨h1, -⟩, h2⟩, h3⟩, -⟩
    refine ⟨?_, ?_, ?_, ?_⟩
    · have := h1 Event.eal_init (by simp)
      simpa [failed] using this
    · have := h1 Event.eth_dev_count_avail (by simp)
      simpa [failed] using this
    · have := h2 (Event.pktmbuf_pool_create (calc_num_mbufs (nbPorts env)) MBUF_CACHE_SIZE 0
          (toU16 env.mbuf_default_buf_size) env.socket_id) (by simp)
      simpa [failed] using this
    · intro p hp
      rw [← portSteps_ok_iff env env.pktmbuf_pool_create p]
      intro e he
      exact h3 e ⟨p, hp, he⟩
  · rintro ⟨h1, h2, h3, h4⟩
    refine ⟨⟨⟨⟨?_, ?_⟩, ?_⟩, ?_⟩, ?_⟩
    · intro e he
      simp only [List.mem_cons, List.mem_singleton, List.not_mem_nil, or_false] at he
      rcases he with rfl | rfl | rfl
      · simpa [failed] using h1
      · simpa [failed] using h2
      · simp [failed, rcOf]
    · intro e he
      obtain ⟨p, -, hp⟩ := he
      exact nameSteps_ok env [p] e (by simpa using hp)
    · intro e he
      simp only [List.mem_cons, List.mem_singleton, List.not_mem_nil, or_false] at he
      rcases he with rfl | rfl | rfl
      · simp [failed, rcOf]
      · simpa [failed] using h3
      · simp [failed, rcOf]
    · intro e he
      obtain ⟨p, hp, hpe⟩ := he
      exact (portSteps_ok_iff env env.pktmbuf_pool_create p).mpr (h4 p hp) e hpe
    · intro e he
      simp only [List.mem_cons, List.mem_singleton, List.not_mem_nil, or_false] at he
      rcases he with rfl | rfl <;> simp [failed, rcOf]

theorem initSteps_no_poll (env : Env) : ∀ e ∈ initSteps env, isPoll e = false := by
  intro e he
  simp only [initSteps, portBlock, portSteps, nameSteps, List.mem_append, List.mem_flatMap,
    List.mem_range, List.mem_cons, List.mem_singleton, List.not_mem_nil, or_false,
    List.mem_map] at he
  rcases he with (((((rfl | rfl | rfl) | ⟨p, -, (rfl | rfl)⟩) | (rfl | rfl | rfl)) |
    ⟨p, -, (((((rfl | rfl) | ⟨q, -, rfl⟩) | ⟨q, -, rfl⟩) | (rfl | rfl)) | rfl)⟩) | (rfl | rfl))
    <;> rfl

/-! ## The receive loop -/

theorem storeBatch_length (batch : List Buf) (bufs : List (Option Buf)) :
    (storeBatch batch bufs).length = bufs.length := by
  simp [storeBatch]
  omega

theorem storeBatch_get (batch : List Buf) (bufs : List (Option Buf)) (i : Nat)
    (hi : i < batch.length) (hb : batch.length ≤ bufs.length) :
    (storeBatch batch bufs)[i]? = some (some (batch.getD i 0)) := by
  unfold storeBatch
  rw [List.getElem?_take_of_lt (by omega), List.getElem?_append_left (by simpa using hi)]
  simp [List.getElem?_map, List.getD_eq_getElem?_getD, List.getElem?_eq_getElem hi]

theorem seqCtl_rx_free (f : Nat → Buf) (l : List Nat) (s : St)
    (h : ∀ i ∈ l, s.bufs[i]? = some (some (f i))) :
    seqCtl rx_free l s
      = .next { s with trace := s.trace ++ l.map (fun i => Event.pktmbuf_free (f i)) } := by
  induction l generalizing s with
  | nil => simp [seqCtl]
  | cons i l ih =>
    have hi := h i (List.mem_cons_self _ _)
    simp only [seqCtl, rx_free, hi]
    rw [ih { s with trace := s.trace ++ [Event.pktmbuf_free (f i)] }
      (fun j hj => h j (List.mem_cons_of_mem _ hj))]
    simp

theorem map_range_getD (batch : List Buf) :
    (List.range batch.length).map (fun i => Event.pktmbuf_free (batch.getD i 0))
      = batch.map Event.pktmbuf_free := by
  apply List.ext_getElem
  · simp
  · intro i h1 h2
    simp at h1
    simp [List.getD_eq_getElem?_getD, List.getElem?_eq_getElem h1]

/-- Within the batch bound the per-port step polls once and releases the batch
in order. -/
theorem rx_port_eq (env : Env) (fuel k p : Nat) (s : St)
    (hb : (env.eth_rx_burst k p).length ≤ s.bufs.length) (hcap : s.bufs.length ≤ 65535)
    (hf : (env.eth_rx_burst k p).length < fuel) :
    rx_port fuel env k p s
      = .next { trace := s.trace ++ portEvents env k p
                bufs := storeBatch (env.eth_rx_burst k p) s.bufs } := by
  have hw : toU16 (env.eth_rx_burst k p).length = (env.eth_rx_burst k p).length := by
    unfold toU16; omega
  unfold rx_port
  simp only [hw]
  by_cases h0 : (env.eth_rx_burst k p).length = 0
  · have : env.eth_rx_burst k p = [] := List.length_eq_zero.mp h0
    simp [h0, this, portEvents]
  · simp only [h0, if_false]
    rw [forU16_eq_range _ _ (by omega) fuel _ hf,
      seqCtl_rx_free (fun i => (env.eth_rx_burst k p).getD i 0)]
    · rw [map_range_getD]
      simp [portEvents]
    · intro i hi
      exact storeBatch_get _ _ i (List.mem_range.mp hi) hb

theorem seqCtl_rx_port (env : Env) (fuel k : Nat) (cap : Nat) (hcap : cap ≤ 65535) :
    ∀ (l : List Nat) (s : St), s.bufs.length = cap →
      (∀ p ∈ l, (env.eth_rx_burst k p).length ≤ cap) → cap < fuel →
      ∃ s', seqCtl (rx_port fuel env k) l s = .next s'
        ∧ s'.trace = s.trace ++ l.flatMap (portEvents env k) ∧ s'.bufs.length = cap := by
  intro l
  induction l with
  | nil => intro s hs _ _; exact ⟨s, by simp [seqCtl], by simp, hs⟩
  | cons p l ih =>
    intro s hs hb hf
    have hp := hb p (List.mem_cons_self _ _)
    simp only [seqCtl]
    rw [rx_port_eq env fuel k p s (by omega) (by omega) (by omega)]
    obtain ⟨s', h1, h2, h3⟩ := ih ⟨s.trace ++ portEvents env k p,
      storeBatch (env.eth_rx_burst k p) s.bufs⟩ (by simp [storeBatch_length, hs])
      (fun q hq => hb q (List.mem_cons_of_mem _ hq)) hf
    exact ⟨s', h1, by simp [h2], h3⟩

/-- Within the batch bound a pass completes with the events `passEvents`. -/
theorem rx_pass_eq (env : Env) (fuel n k : Nat) (s : St) (hn : n ≤ 65535) (hfn : n < fuel)
    (hfb : BURST_SIZE < fuel) (hs : s.bufs.length = BURST_SIZE)
    (hb : ∀ p, p < n → (env.eth_rx_burst k p).length ≤ BURST_SIZE) :
    ∃ s', rx_pass fuel env n k s = .next s'
      ∧ s'.trace = s.trace ++ passEvents env n k ∧ s'.bufs.length = BURST_SIZE := by
  unfold rx_pass
  rw [forU16_eq_range _ _ hn fuel _ hfn]
  exact seqCtl_rx_port env fuel k BURST_SIZE (by simp [BURST_SIZE]) (List.range n) s hs
    (fun p hp => hb p (List.mem_range.mp hp)) hfb

/-- Within the batch bound the receive loop completes every pass of its budget
and is then still running. -/
theorem rx_loop_eq (env : Env) (fuel n : Nat) (hn : n ≤ 65535) (hfn : n < fuel)
    (hfb : BURST_SIZE < fuel)
    (hb : ∀ k p, p < n → (env.eth_rx_burst k p).length ≤ BURST_SIZE) :
    ∀ (passes k : Nat) (s : St), s.bufs.length = BURST_SIZE →
      ∃ s', whileLoop (fun _ => true) (rx_pass fuel env n) passes k s = .timeout s'
        ∧ s'.trace = s.trace ++ (List.range' k passes).flatMap (passEvents env n)
        ∧ s'.bufs.length = BURST_SIZE := by
  intro passes
  induction passes with
  | zero => intro k s hs; exact ⟨s, by simp [whileLoop], by simp, hs⟩
  | succ passes ih =>
    intro k s hs
    obtain ⟨s1, h1, h2, h3⟩ := rx_pass_eq env fuel n k s hn hfn hfb hs (hb k)
    obtain ⟨s2, h4, h5, h6⟩ := ih (k + 1) s1 h3
    refine ⟨s2, ?_, ?_, h6⟩
    · simp only [whileLoop, if_true, h1]
      exact h4
    · rw [h5, h2, List.range'_succ]
      simp

theorem Grows_refl (P : Event → Bool) (s : St) : Grows P s.trace (.next s) :=
  ⟨[], by simp [Ctl.state], by simp⟩

theorem Grows_timeout (P : Event → Bool) (tr0 : List Event) (s : St)
    (h : Grows P tr0 (.next s)) : Grows P tr0 (.timeout s) := h

theorem rx_free_grows (P : Event → Bool) (hP : ∀ m, P (Event.pktmbuf_free m) = true)
    (tr0 : List Event) (i : Nat) (s : St) (h : Grows P tr0 (.next s)) :
    Grows P tr0 (rx_free i s) := by
  obtain ⟨added, h1, h2⟩ := h
  simp only [Ctl.state] at h1
  unfold rx_free
  split
  · rename_i m _
    refine ⟨added ++ [Event.pktmbuf_free m], by simp [Ctl.state, h1], ?_⟩
    intro e he
    rcases List.mem_append.mp he with he | he
    · exact h2 e he
    · rw [List.mem_singleton.mp he]; exact hP m
  · exact ⟨added, h1, h2⟩

theorem rx_port_grows (P : Event → Bool) (hP : ∀ m, P (Event.pktmbuf_free m) = true)
    (hP2 : ∀ p, P (Event.eth_rx_burst p 0 BURST_SIZE) = true)
    (env : Env) (fuel k : Nat) (tr0 : List Event) (p : Nat) (s : St)
    (h : Grows P tr0 (.next s)) : Grows P tr0 (rx_port fuel env k p s) := by
  obtain ⟨added, h1, h2⟩ := h
  simp only [Ctl.state] at h1
  have h' : Grows P tr0 (.next { trace := s.trace ++ [Event.eth_rx_burst p 0 BURST_SIZE]
                                 bufs := storeBatch (env.eth_rx_burst k p) s.bufs }) := by
    refine ⟨added ++ [Event.eth_rx_burst p 0 BURST_SIZE], by simp [Ctl.state, h1], ?_⟩
    intro e he
    rcases List.mem_append.mp he with he | he
    · exact h2 e he
    · rw [List.mem_singleton.mp he]; exact hP2 p
  unfold rx_port
  simp only []
  split
  · exact h'
  · exact forU16_inv (Grows P tr0) _ rx_free (rx_free_grows P hP tr0)
      (Grows_timeout P tr0) fuel 0 _ h'

theorem rx_pass_grows (P : Event → Bool) (hP : ∀ m, P (Event.pktmbuf_free m) = true)
    (hP2 : ∀ p, P (Event.eth_rx_burst p 0 BURST_SIZE) = true)
    (env : Env) (fuel n : Nat) (tr0 : List Event) (k : Nat) (s : St)
    (h : Grows P tr0 (.next s)) : Grows P tr0 (rx_pass fuel env n k s) :=
  forU16_inv (Grows P tr0) n (rx_port fuel env k) (rx_port_grows P hP hP2 env fuel k tr0)
    (Grows_timeout P tr0) fuel 0 s h

theorem rx_loop_grows (P : Event → Bool) (hP : ∀ m, P (Event.pktmbuf_free m) = true)
    (hP2 : ∀ p, P (Event.eth_rx_burst p 0 BURST_SIZE) = true)
    (env : Env) (fuel n passes k : Nat) (s : St) :
    Grows P s.trace (whileLoop (fun _ => true) (rx_pass fuel env n) passes k s) :=
  whileLoop_inv (Grows P s.trace) _ (rx_pass fuel env n)
    (rx_pass_grows P hP hP2 env fuel n s.trace) (Grows_timeout P s.trace) passes k s
    (Grows_refl P s)

/-- With a port, a budget and a pass, the loop issues the poll of port 0. -/
theorem rx_loop_first_poll (env : Env) (fuel n passes : Nat) (s : St)
    (hn : 0 < n) (hf : 0 < fuel) (hp : 0 < passes) :
    Event.eth_rx_burst 0 0 BURST_SIZE
      ∈ (whileLoop (fun _ => true) (rx_pass fuel env n) passes 0 s).state.trace := by
  obtain ⟨passes, rfl⟩ : ∃ m, passes = m + 1 := ⟨passes - 1, by omega⟩
  obtain ⟨fuel, rfl⟩ : ∃ m, fuel = m + 1 := ⟨fuel - 1, by omega⟩
  let P : Event → Bool := fun _ => true
  let tr1 := s.trace ++ [Event.eth_rx_burst 0 0 BURST_SIZE]
  have key : Grows P tr1 (whileLoop (fun _ => true) (rx_pass (fuel + 1) env n) (passes + 1) 0 s) := by
    have hport : Grows P tr1 (rx_port (fuel + 1) env 0 0 s) := by
      have h' : Grows P tr1 (.next { trace := s.trace ++ [Event.eth_rx_burst 0 0 BURST_SIZE]
                                     bufs := storeBatch (env.eth_rx_burst 0 0) s.bufs }) :=
        ⟨[], by simp [Ctl.state, tr1], by simp⟩
      unfold rx_port
      simp only []
      split
      · exact h'
      · exact forU16_inv (Grows P tr1) _ rx_free (rx_free_grows P (fun _ => rfl) tr1)
          (Grows_timeout P tr1) (fuel + 1) 0 _ h'
    have hpass : Grows P tr1 (rx_pass (fuel + 1) env n 0 s) := by
      unfold rx_pass
      simp only [forU16, hn, if_true]
      cases hc : rx_port (fuel + 1) env 0 0 s with
      | next s' =>
        rw [hc] at hport
        exact forU16_inv (Grows P tr1) n _
          (rx_port_grows P (fun _ => rfl) (fun _ => rfl) env (fuel + 1) 0 tr1)
          (Grows_timeout P tr1) fuel _ s' hport
      | exit c s' => rw [hc] at hport; exact hport
      | fault s' => rw [hc] at hport; exact hport
      | timeout s' => rw [hc] at hport; exact hport
    simp only [whileLoop, if_true]
    cases hc : rx_pass (fuel + 1) env n 0 s with
    | next s' =>
      rw [hc] at hpass
      exact whileLoop_inv (Grows P tr1) _ _
        (rx_pass_grows P (fun _ => rfl) (fun _ => rfl) env (fuel + 1) n tr1)
        (Grows_timeout P tr1) passes 1 s' hpass
    | exit c s' => rw [hc] at hpass; exact hpass
    | fault s' => rw [hc] at hpass; exact hpass
    | timeout s' => rw [hc] at hpass; exact hpass
  obtain ⟨added, h1, -⟩ := key
  rw [h1]
  simp [tr1]

/-- The loop `while (true)` never falls through. -/
theorem whileLoop_true_ne_next {σ : Type} (body : Nat → σ → Ctl σ)
    (hbody : ∀ k s c s', body k s = .exit c s' → c ≠ 0) :
    ∀ (passes k : Nat) (s : σ),
      (∀ s', whileLoop (fun _ => true) body passes k s ≠ .next s')
      ∧ (∀ s', whileLoop (fun _ => true) body passes k s ≠ .exit 0 s') := by
  intro passes
  induction passes with
  | zero => intro k s; simp [whileLoop]
  | succ passes ih =>
    intro k s
    simp only [whileLoop, if_true]
    cases hc : body k s with
    | next s' => exact ih (k + 1) s'
    | exit c s' =>
      refine ⟨by simp, ?_⟩
      intro s'' h
      injection h with h1 h2
      exact hbody k s c s' hc h1
    | fault s' => simp
    | timeout s' => simp

/-! ## The whole program -/

theorem main_of_init_exit (env : Env) (fuel passes : Nat) (c : Int) (tr : List Event)
    (h : main_init fuel env = .exit c tr) : main fuel passes env = .exit c tr := by
  simp [main, h]

theorem main_state_of_init_next (env : Env) (fuel passes : Nat) (tr : List Event)
    (h : main_init fuel env = .next tr) :
    (main fuel passes env).state
      = (whileLoop (fun _ => true) (rx_pass fuel env (nbPorts env)) passes 0
          { trace := tr, bufs := bufs0 }).state.trace := by
  simp only [main, h]
  cases whileLoop (fun _ => true) (rx_pass fuel env (nbPorts env)) passes 0
      { trace := tr, bufs := bufs0 } <;> rfl

theorem main_init_of_ok (env : Env) (fuel : Nat) (hf : nbPorts env < fuel) (hf3 : 3 ≤ fuel)
    (h : initOK env) : main_init fuel env = .next (initSteps env) := by
  rw [main_init_eq env fuel hf hf3,
    runSteps_of_all env _ _ ((initSteps_ok_iff env).mpr h)]
  simp

theorem main_init_of_not_ok (env : Env) (fuel : Nat) (hf : nbPorts env < fuel) (hf3 : 3 ≤ fuel)
    (h : ¬ initOK env) : main_init fuel env = .exit 1 (cutAtFail env (initSteps env)) := by
  rw [main_init_eq env fuel hf hf3]
  have : ¬ ((initSteps env).all (fun e => !failed env e) = true) := by
    intro hall
    apply h
    rw [← initSteps_ok_iff]
    simpa using hall
  simp [runSteps, this]

/-! ## Releases and polls of a pass -/

theorem releases_append (a b : List Event) : releases (a ++ b) = releases a ++ releases b := by
  induction a with
  | nil => rfl
  | cons e es ih => cases e <;> simp [releases, ih]

theorem releases_map_free (l : List Buf) : releases (l.map Event.pktmbuf_free) = l := by
  induction l with
  | nil => rfl
  | cons b bs ih => simp [releases, ih]

theorem releases_passEvents (env : Env) (n k : Nat) :
    releases (passEvents env n k) = handed env n k := by
  unfold passEvents handed
  induction List.range n with
  | nil => rfl
  | cons p l ih =>
    rw [List.flatMap_cons, List.flatMap_cons, releases_append, ih]
    simp [portEvents, releases, releases_map_free]

theorem polls_passEvents (env : Env) (n k : Nat) :
    (passEvents env n k).filter isPoll
      = (List.range n).map (fun p => Event.eth_rx_burst p 0 BURST_SIZE) := by
  unfold passEvents
  induction List.range n with
  | nil => rfl
  | cons p l ih =>
    have : ((env.eth_rx_burst k p).map Event.pktmbuf_free).filter isPoll = [] := by
      rw [List.filter_eq_nil_iff]
      intro e he
      obtain ⟨m, -, rfl⟩ := List.mem_map.mp he
      simp [isPoll]
    rw [List.flatMap_cons, List.filter_append, ih]
    simp [portEvents, List.filter, isPoll, this]

/-- Releasing distinct buffers that are in flight never hits a double release
and keeps the number of buffers. -/
theorem releaseAll_ok (bs : List Buf) :
    ∀ (a : PoolAcct) (N : Nat), a.free.length + a.inflight.length = N → bs.Nodup →
      (∀ b ∈ bs, b ∈ a.inflight) →
      ∃ a', a.releaseAll bs = some a' ∧ a'.free.length + a'.inflight.length = N
        ∧ a'.free = bs.reverse ++ a.free := by
  induction bs with
  | nil => intro a N h _ _; exact ⟨a, rfl, h, by simp⟩
  | cons b bs ih =>
    intro a N h hnd hmem
    have hb : b ∈ a.inflight := hmem b (List.mem_cons_self _ _)
    have hnd' := List.nodup_cons.mp hnd
    have hlen : (a.inflight.erase b).length + 1 = a.inflight.length := by
      rw [List.length_erase_of_mem hb]
      have : 0 < a.inflight.length := List.length_pos_of_mem hb
      omega
    obtain ⟨a', h1, h2, h3⟩ := ih { free := b :: a.free, inflight := a.inflight.erase b } N
      (by simp only [List.length_cons]; omega) hnd'.2
      (fun x hx => (List.mem_erase_of_ne (by rintro rfl; exact hnd'.1 hx)).mpr
        (hmem x (List.mem_cons_of_mem _ hx)))
    refine ⟨a', ?_, h2, ?_⟩
    · simp [PoolAcct.releaseAll, PoolAcct.release, hb, h1]
    · simp [h3]

theorem rx_free_noExit (i : Nat) (s : St) : (rx_free i s).noExit := by
  unfold rx_free
  split <;> trivial

theorem rx_port_noExit (env : Env) (fuel k p : Nat) (s : St) :
    (rx_port fuel env k p s).noExit := by
  unfold rx_port
  simp only []
  split
  · trivial
  · exact forU16_inv Ctl.noExit _ rx_free (fun i s _ => rx_free_noExit i s)
      (fun _ _ => trivial) fuel 0 _ trivial

theorem rx_pass_noExit (env : Env) (fuel n k : Nat) (s : St) :
    (rx_pass fuel env n k s).noExit :=
  forU16_inv Ctl.noExit n (rx_port fuel env k) (fun p s _ => rx_port_noExit env fuel k p s)
    (fun _ _ => trivial) fuel 0 s trivial

theorem rx_loop_never_done (env : Env) (fuel n passes k : Nat) (s : St) :
    (∀ s', whileLoop (fun _ => true) (rx_pass fuel env n) passes k s ≠ .next s')
    ∧ (∀ s', whileLoop (fun _ => true) (rx_pass fuel env n) passes k s ≠ .exit 0 s') := by
  apply whileLoop_true_ne_next
  intro k s c s' h
  have := rx_pass_noExit env fuel n k s
  rw [h] at this
  exact this.elim

theorem port_init_exitsOne (env : Env) (fuel p pool : Nat) (tr : List Event) :
    (port_init fuel env p pool tr).exitsOne := by
  unfold port_init
  simp only []
  split
  · rfl
  · have hrx := forU16_inv Ctl.exitsOne NB_RXQ (fun q tr =>
        if env.eth_rx_queue_setup p q < 0 then
          Ctl.exit 1 (tr ++ [Event.eth_rx_queue_setup p q RX_RING_SIZE (env.eth_dev_socket_id p)
            pool] ++ [Event.stderr (Diag.rx_queue_setup_failed p q (env.eth_rx_queue_setup p q))])
        else .next (tr ++ [Event.eth_rx_queue_setup p q RX_RING_SIZE (env.eth_dev_socket_id p)
            pool]))
      (fun q tr _ => by simp only []; split <;> trivial) (fun _ _ => trivial) fuel 0
      (tr ++ [Event.eth_dev_configure p NB_RXQ NB_TXQ] ++ [Event.eth_dev_socket_id p]) trivial
    split
    · rename_i tr1 _
      have htx := forU16_inv Ctl.exitsOne NB_TXQ (fun q tr =>
          if env.eth_tx_queue_setup p q < 0 then
            Ctl.exit 1 (tr ++ [Event.eth_tx_queue_setup p q TX_RING_SIZE (env.eth_dev_socket_id p)]
              ++ [Event.stderr (Diag.tx_queue_setup_failed p q (env.eth_tx_queue_setup p q))])
          else .next (tr ++ [Event.eth_tx_queue_setup p q TX_RING_SIZE (env.eth_dev_socket_id p)]))
        (fun q tr _ => by simp only []; split <;> trivial) (fun _ _ => trivial) fuel 0
        tr1 trivial
      split
      · split <;> trivial
      · rename_i c hc _
        exact htx
    · exact hrx

theorem main_init_exitsOne (env : Env) (fuel : Nat) : (main_init fuel env).exitsOne := by
  unfold main_init
  simp only []
  split
  · rfl
  split
  · rfl
  have hnames := forU16_inv Ctl.exitsOne (nbPorts env) (fun port_id tr =>
      (Ctl.next (tr ++ [Event.eth_dev_get_name_by_port port_id,
        Event.stdout (Msg.port_name port_id (env.eth_dev_get_name_by_port port_id == 0))]) :
        Ctl (List Event)))
    (fun _ _ _ => trivial) (fun _ _ => trivial) fuel 0
    ([Event.eal_init] ++ [Event.eth_dev_count_avail] ++
      [Event.stdout (Msg.sees_ports (nbPorts env))]) trivial
  split
  · split
    · rfl
    · rename_i tr1 _ _
      have hports := forU16_inv Ctl.exitsOne (nbPorts env) (fun port_id tr =>
          match port_init fuel env port_id env.pktmbuf_pool_create tr with
          | .next tr => Ctl.next (tr ++ [Event.stdout (Msg.port_started port_id NB_RXQ NB_TXQ)])
          | c => c)
        (fun p tr _ => by
          have := port_init_exitsOne env fuel p env.pktmbuf_pool_create tr
          simp only []
          split
          · trivial
          · exact this)
        (fun _ _ => trivial) fuel 0
        (tr1 ++ [Event.socket_id,
          Event.pktmbuf_pool_create (calc_num_mbufs (nbPorts env)) MBUF_CACHE_SIZE 0
            (toU16 env.mbuf_default_buf_size) env.socket_id] ++
          [Event.stdout (Msg.created_mempool (calc_num_mbufs (nbPorts env))
            (toU16 env.mbuf_default_buf_size))]) trivial
      split
      · trivial
      · exact hports
  · exact hnames

/-- The function `main` never terminates with status 0. -/
theorem main_ne_exit_zero (env : Env) (fuel passes : Nat) (tr : List Event) :
    main fuel passes env ≠ .exit 0 tr := by
  unfold main
  have hinit := main_init_exitsOne env fuel
  split
  · rename_i tr1 _
    have hloop := rx_loop_never_done env fuel (nbPorts env) passes 0
      { trace := tr1, bufs := bufs0 }
    split
    · rename_i s h
      exact absurd h (hloop.1 s)
    · rename_i c hc
      cases hw : whileLoop (fun _ => true) (rx_pass fuel env (nbPorts env)) passes 0
          { trace := tr1, bufs := bufs0 } with
      | next s' => exact absurd hw (hloop.1 s')
      | exit code s' =>
        simp only [Ctl.map]
        intro h
        injection h with h1 h2
        subst h1
        exact hloop.2 s' hw
      | fault s' => simp [Ctl.map]
      | timeout s' => simp [Ctl.map]
  · rename_i c hc
    intro h
    rw [h] at hinit
    simp [Ctl.exitsOne] at hinit

theorem releases_eq_nil (l : List Event) (h : ∀ e ∈ l, isRxLoopEvent e = false) :
    releases l = [] := by
  induction l with
  | nil => rfl
  | cons e es ih =>
    have he := h e (List.mem_cons_self _ _)
    have ih' := ih (fun x hx => h x (List.mem_cons_of_mem _ hx))
    cases e <;> simp_all [releases, isRxLoopEvent]

theorem initSteps_no_loop_event (env : Env) : ∀ e ∈ initSteps env, isRxLoopEvent e = false := by
  intro e he
  simp only [initSteps, portBlock, portSteps, nameSteps, List.mem_append, List.mem_flatMap,
    List.mem_range, List.mem_cons, List.mem_singleton, List.not_mem_nil, or_false,
    List.mem_map] at he
  rcases he with (((((rfl | rfl | rfl) | ⟨p, -, (rfl | rfl)⟩) | (rfl | rfl | rfl)) |
    ⟨p, -, (((((rfl | rfl) | ⟨q, -, rfl⟩) | ⟨q, -, rfl⟩) | (rfl | rfl)) | rfl)⟩) | (rfl | rfl))
    <;> rfl

theorem polls_passes (env : Env) (n passes : Nat) :
    (((List.range passes).flatMap (passEvents env n)).filter isPoll).length = passes * n := by
  induction passes with
  | zero => simp
  | succ m ih =>
    rw [List.range_succ, List.flatMap_append, List.filter_append, List.length_append, ih]
    simp [polls_passEvents, Nat.succ_mul]

theorem releases_passes (env : Env) (n passes : Nat) :
    releases ((List.range passes).flatMap (passEvents env n))
      = (List.range passes).flatMap (handed env n) := by
  induction passes with
  | zero => rfl
  | succ m ih =>
    rw [List.range_succ, List.flatMap_append, List.flatMap_append, releases_append, ih]
    simp [releases_passEvents]

/-- On a successful initialization with polls within the batch bound the
program is still in the receive loop after any number of passes. -/
theorem main_running (env : Env) (fuel passes : Nat) (hf : nbPorts env < fuel)
    (hfb : BURST_SIZE < fuel) (hok : initOK env)
    (hb : ∀ k p, p < nbPorts env → (env.eth_rx_burst k p).length ≤ BURST_SIZE) :
    main fuel passes env
      = .timeout (initSteps env ++ (List.range passes).flatMap (passEvents env (nbPorts env))) := by
  have hinit := main_init_of_ok env fuel hf (by simp [BURST_SIZE] at hfb; omega) hok
  obtain ⟨s', h1, h2, -⟩ := rx_loop_eq env fuel (nbPorts env) (nbPorts_le env) hf hfb hb passes 0
    { trace := initSteps env, bufs := bufs0 } (by simp [bufs0])
  simp only [main, hinit, h1, Ctl.map, h2, List.range_eq_range']

theorem cutAtFail_append_of_ok (env : Env) (a b : List Event)
    (h : ∀ e ∈ a, failed env e = false) : cutAtFail env (a ++ b) = a ++ cutAtFail env b := by
  induction a with
  | nil => rfl
  | cons e es ih =>
    have he := h e (List.mem_cons_self _ _)
    simp [cutAtFail, he, ih (fun x hx => h x (List.mem_cons_of_mem _ hx))]

theorem mem_cutAtFail (env : Env) (steps : List Event) (e : Event)
    (h : e ∈ cutAtFail env steps) : e ∈ steps ∨ isStderr e = true := by
  induction steps with
  | nil => simp [cutAtFail] at h
  | cons x xs ih =>
    simp only [cutAtFail] at h
    split at h
    · simp only [List.mem_cons, List.mem_singleton, List.not_mem_nil, or_false] at h
      rcases h with rfl | rfl
      · exact Or.inl (List.mem_cons_self _ _)
      · exact Or.inr rfl
    · rcases List.mem_cons.mp h with rfl | h
      · exact Or.inl (List.mem_cons_self _ _)
      · rcases ih h with h | h
        · exact Or.inl (List.mem_cons_of_mem _ h)
        · exact Or.inr h

/-- The trace of a run: the initialization up to its first failure, then
events of the receive loop, and none of these when initialization failed. -/
theorem main_trace (env : Env) (fuel passes : Nat) (hf : nbPorts env < fuel) (hf3 : 3 ≤ fuel) :
    ∃ added, (main fuel passes env).state = cutAtFail env (initSteps env) ++ added
      ∧ (∀ e ∈ added, isRxLoopEvent e = true) ∧ (¬ initOK env → added = []) := by
  by_cases hok : initOK env
  · have hinit := main_init_of_ok env fuel hf hf3 hok
    obtain ⟨added, h1, h2⟩ := rx_loop_grows isRxLoopEvent (fun _ => rfl)
      (fun _ => by simp [isRxLoopEvent]) env fuel (nbPorts env) passes 0
      { trace := initSteps env, bufs := bufs0 }
    refine ⟨added, ?_, h2, fun h => absurd hok h⟩
    rw [main_state_of_init_next env fuel passes _ hinit, h1,
      cutAtFail_of_all env _ ((initSteps_ok_iff env).mpr hok)]
  · refine ⟨[], ?_, by simp, fun _ => rfl⟩
    rw [main_of_init_exit env fuel passes 1 _ (main_init_of_not_ok env fuel hf hf3 hok)]
    simp [Ctl.state]

theorem initSteps_split (env : Env) :
    initSteps env
      = ([Event.eal_init, Event.eth_dev_count_avail, Event.stdout (Msg.sees_ports (nbPorts env))]
          ++ (List.range (nbPorts env)).flatMap (nameSteps env) ++ [Event.socket_id])
        ++ Event.pktmbuf_pool_create (calc_num_mbufs (nbPorts env)) MBUF_CACHE_SIZE 0
            (toU16 env.mbuf_default_buf_size) env.socket_id
          :: ([Event.stdout (Msg.created_mempool (calc_num_mbufs (nbPorts env))
                (toU16 env.mbuf_default_buf_size))]
              ++ (List.range (nbPorts env)).flatMap (portBlock env env.pktmbuf_pool_create)
              ++ [Event.lcore_id, Event.stdout (Msg.entering_rx_loop env.lcore_id)]) := by
  simp [initSteps]

theorem initHead_props (env : Env) :
    ∀ e ∈ [Event.eal_init, Event.eth_dev_count_avail, Event.stdout (Msg.sees_ports (nbPorts env))]
          ++ (List.range (nbPorts env)).flatMap (nameSteps env) ++ [Event.socket_id],
      isPoolCreate e = false ∧ isBringUp e = false
      ∧ (0 ≤ env.eal_init → nbPorts env ≠ 0 → failed env e = false) := by
  intro e he
  simp only [nameSteps, List.mem_append, List.mem_flatMap, List.mem_range, List.mem_cons,
    List.mem_singleton, List.not_mem_nil, or_false] at he
  rcases he with ((rfl | rfl | rfl) | ⟨p, -, (rfl | rfl)⟩) | rfl <;>
    (first
      | (simp [isPoolCreate, isBringUp, failed, rcOf]; done)
      | (simp [isPoolCreate, isBringUp, failed, rcOf]; intros; assumption))

theorem initTail_no_pool_create (env : Env) :
    ∀ e ∈ [Event.stdout (Msg.created_mempool (calc_num_mbufs (nbPorts env))
                (toU16 env.mbuf_default_buf_size))]
              ++ (List.range (nbPorts env)).flatMap (portBlock env env.pktmbuf_pool_create)
              ++ [Event.lcore_id, Event.stdout (Msg.entering_rx_loop env.lcore_id)],
      isPoolCreate e = false := by
  intro e he
  simp only [portBlock, portSteps, List.mem_append, List.mem_flatMap, List.mem_range,
    List.mem_cons, List.mem_singleton, List.not_mem_nil, or_false, List.mem_map] at he
  rcases he with (rfl | ⟨p, -, (((((rfl | rfl) | ⟨q, -, rfl⟩) | ⟨q, -, rfl⟩) | (rfl | rfl)) | rfl)⟩)
    | (rfl | rfl) <;> rfl

theorem isRxLoopEvent_not_init (e : Event) (h : isRxLoopEvent e = true) :
    isPoolCreate e = false ∧ isBringUp e = false ∧ isStderr e = false := by
  cases e <;> simp_all [isRxLoopEvent, isPoolCreate, isBringUp, isStderr]

theorem isStderr_not_init (e : Event) (h : isStderr e = true) :
    isPoolCreate e = false ∧ isBringUp e = false := by
  cases e <;> simp_all [isPoolCreate, isBringUp, isStderr]

theorem rx_setup_pool_of_mem_initSteps (env : Env) (port q n : Nat) (sock : Int) (pool : Pool)
    (h : Event.eth_rx_queue_setup port q n sock pool ∈ initSteps env) :
    pool = env.pktmbuf_pool_create := by
  simp only [initSteps, portBlock, portSteps, nameSteps, List.mem_append, List.mem_flatMap,
    List.mem_range, List.mem_cons, List.mem_singleton, List.not_mem_nil, or_false,
    List.mem_map] at h
  simp at h
  obtain ⟨p, -, q', -, -, -, -, -, h5⟩ := h
  exact h5.symm

theorem cutAtFail_cons_exists (env : Env) (e : Event) (es : List Event) :
    ∃ rest, cutAtFail env (e :: es) = e :: rest ∧ ∀ x ∈ rest, x ∈ es ∨ isStderr x = true := by
  by_cases h : failed env e = true
  · exact ⟨[Event.stderr (diagOf env e)], by simp [cutAtFail, h], by simp [isStderr]⟩
  · exact ⟨cutAtFail env es, by simp [cutAtFail, h], fun x hx => mem_cutAtFail env es x hx⟩

/-! ## The claims -/

/-- C1 (sizing invariant): for every port count `P` that fits the 16-bit
parameter, the value `calc_num_mbufs P`, computed with the integer promotions
and the 32-bit unsigned arithmetic of the code, is at least
`P * NB_RXQ * RX_RING_SIZE = P * 2 * 1024` as a natural number. -/
theorem C1_sizing_invariant (P : Nat) (hP : P ≤ 65535) :
    P * NB_RXQ * RX_RING_SIZE ≤ calc_num_mbufs P ∧ P * 2 * 1024 ≤ calc_num_mbufs P := by
  simp only [calc_num_mbufs, mulI32, toI32, toU32, addU32, NB_RXQ, NB_TXQ, RX_RING_SIZE,
    TX_RING_SIZE]
  omega

/-- Witness of C1 at the largest port count. -/
theorem C1_sizing_invariant_witness :
    65535 ≤ 65535
    ∧ 65535 * NB_RXQ * RX_RING_SIZE ≤ calc_num_mbufs 65535
    ∧ 65535 * 2 * 1024 ≤ calc_num_mbufs 65535 :=
  ⟨by decide, C1_sizing_invariant 65535 (by decide)⟩

/-- C2 (sizing formula): for every port count `P` that fits the 16-bit
parameter, `calc_num_mbufs P` is exactly
`P*NB_RXQ*RX_RING_SIZE + P*NB_TXQ*TX_RING_SIZE + 8192 = 4096*P + 8192` as a
natural number, so neither the promoted products nor the 32-bit sum wraps; for
two ports the value is 16384. -/
theorem C2_sizing_formula (P : Nat) (hP : P ≤ 65535) :
    calc_num_mbufs P = P * NB_RXQ * RX_RING_SIZE + P * NB_TXQ * TX_RING_SIZE + 8192
    ∧ calc_num_mbufs P = 4096 * P + 8192
    ∧ calc_num_mbufs 2 = 16384 := by
  simp only [calc_num_mbufs, mulI32, toI32, toU32, addU32, NB_RXQ, NB_TXQ, RX_RING_SIZE,
    TX_RING_SIZE]
  omega

/-- Witness of C2 at the two ports of the end-to-end scenario. -/
theorem C2_sizing_formula_witness :
    2 ≤ 65535
    ∧ calc_num_mbufs 2 = 2 * NB_RXQ * RX_RING_SIZE + 2 * NB_TXQ * TX_RING_SIZE + 8192
    ∧ calc_num_mbufs 2 = 4096 * 2 + 8192
    ∧ calc_num_mbufs 2 = 16384 :=
  ⟨by decide, C2_sizing_formula 2 (by decide)⟩

/-- C3 (bring-up ordering): for every port, pool, earlier trace and assignment
of results, the bring-up primitives (configure, queue setups, start) that
`port_init` issues are the canonical sequence (configure; the receive queues
`0..NB_RXQ-1` in order, each with `RX_RING_SIZE` and the pool; the transmit
queues `0..NB_TXQ-1` in order, each with `TX_RING_SIZE`; start) cut
immediately after the first primitive with a negative result, hence a prefix
of that sequence.  When no result is negative `port_init` returns; otherwise
the process exits with status 1.  All that `port_init` adds to the trace is
the list `portSteps` (the canonical sequence with the socket query after
configure and the promiscuous switch after start) cut at the first failure and
followed there by the diagnostic. -/
theorem C3_bringup_ordering (env : Env) (port_id : Nat) (pool : Pool) (tr : List Event)
    (fuel : Nat) (hf : 3 ≤ fuel) :
    ∃ added : List Event,
      (port_init fuel env port_id pool tr).state = tr ++ added
      ∧ added = cutAtFail env (portSteps env pool port_id)
      ∧ added.filter isBringUp
          = cutAfterNeg env (canonical port_id (env.eth_dev_socket_id port_id) pool)
      ∧ added.filter isBringUp <+: canonical port_id (env.eth_dev_socket_id port_id) pool
      ∧ ((∀ e ∈ canonical port_id (env.eth_dev_socket_id port_id) pool, 0 ≤ rcOf env e) →
          port_init fuel env port_id pool tr = .next (tr ++ added))
      ∧ ((∃ e ∈ canonical port_id (env.eth_dev_socket_id port_id) pool, rcOf env e < 0) →
          port_init fuel env port_id pool tr = .exit 1 (tr ++ added)) := by
  refine ⟨cutAtFail env (portSteps env pool port_id), ?_, rfl, ?_⟩
  · rw [port_init_eq env port_id pool tr fuel hf, runSteps_state]
  rw [port_init_eq env port_id pool tr fuel hf]
  simp only [portSteps, canonical, NB_RXQ, NB_TXQ, List.range_succ, List.range_zero, List.map,
    List.nil_append, List.cons_append, List.map_append, runSteps_cons, runSteps_nil, failed, rcOf,
    decide_eq_true_eq, cutAtFail, cutAfterNeg, List.mem_cons, forall_eq_or_imp, exists_eq_or_imp]
  by_cases h1 : env.eth_dev_configure port_id < 0 <;>
  by_cases h2 : env.eth_rx_queue_setup port_id 0 < 0 <;>
  by_cases h3 : env.eth_rx_queue_setup port_id 1 < 0 <;>
  by_cases h4 : env.eth_tx_queue_setup port_id 0 < 0 <;>
  by_cases h5 : env.eth_tx_queue_setup port_id 1 < 0 <;>
  by_cases h6 : env.eth_dev_start port_id < 0 <;>
  simp [h1, h2, h3, h4, h5, h6, isBringUp, List.filter, not_le.mpr, List.prefix_cons_inj,
    List.prefix_rfl]

/-- Witness of C3: port 1 of the environment in which configure is rejected on
port 1. -/
theorem C3_bringup_ordering_witness :
    3 ≤ 3 ∧
    ∃ added : List Event,
      (port_init 3 envRej 1 1 []).state = [] ++ added
      ∧ added = cutAtFail envRej (portSteps envRej 1 1)
      ∧ added.filter isBringUp
          = cutAfterNeg envRej (canonical 1 (envRej.eth_dev_socket_id 1) 1)
      ∧ added.filter isBringUp <+: canonical 1 (envRej.eth_dev_socket_id 1) 1
      ∧ ((∀ e ∈ canonical 1 (envRej.eth_dev_socket_id 1) 1, 0 ≤ rcOf envRej e) →
          port_init 3 envRej 1 1 [] = .next ([] ++ added))
      ∧ ((∃ e ∈ canonical 1 (envRej.eth_dev_socket_id 1) 1, rcOf envRej e < 0) →
          port_init 3 envRej 1 1 [] = .exit 1 ([] ++ added)) :=
  ⟨by decide, C3_bringup_ordering envRej 1 1 [] 3 (by decide)⟩

/-- C4 (fatal initialization failure): for every assignment of results to the
initialization primitives, the program issues a poll if and only if
environment init returned a non-negative result, the port count is non-zero,
pool creation returned a non-null pool, and configure, every receive-queue
setup, every transmit-queue setup and start returned a non-negative result for
every port below the port count.  In every other case the process terminates
with status 1 right after the first failed primitive `c` and its diagnostic:
no primitive before `c` failed, nothing is issued after it, and no poll is
ever issued. -/
theorem C4_fatal_init_failure (env : Env) (fuel passes : Nat)
    (hf : nbPorts env < fuel) (hf3 : 3 ≤ fuel) (hp : 0 < passes) :
    ((∃ e ∈ (main fuel passes env).state, isPoll e = true) ↔ initOK env)
    ∧ (¬ initOK env →
        ∃ pre c, main fuel passes env = .exit 1 (pre ++ [c, Event.stderr (diagOf env c)])
          ∧ failed env c = true
          ∧ (∀ e ∈ pre, failed env e = false)
          ∧ (∀ e ∈ pre ++ [c, Event.stderr (diagOf env c)], isPoll e = false)) := by
  have hfail : ¬ initOK env →
      ∃ pre c, main fuel passes env = .exit 1 (pre ++ [c, Event.stderr (diagOf env c)])
        ∧ failed env c = true
        ∧ (∀ e ∈ pre, failed env e = false)
        ∧ (∀ e ∈ pre ++ [c, Event.stderr (diagOf env c)], isPoll e = false) := by
    intro hno
    have hex : ∃ e ∈ initSteps env, failed env e = true := by
      by_contra hcon
      apply hno
      rw [← initSteps_ok_iff]
      intro e he
      cases hfe : failed env e with
      | false => rfl
      | true => exact absurd ⟨e, he, hfe⟩ hcon
    obtain ⟨pre, c, h1, h2, h3, h4⟩ := cutAtFail_split env (initSteps env) hex
    refine ⟨pre, c, ?_, h2, h3, ?_⟩
    · rw [← h1]
      exact main_of_init_exit env fuel passes 1 _ (main_init_of_not_ok env fuel hf hf3 hno)
    · intro e he
      have he' : e ∈ (pre ++ [c]) ∨ e = Event.stderr (diagOf env c) := by
        simp only [List.mem_append, List.mem_cons, List.mem_singleton, List.not_mem_nil,
          or_false] at he ⊢
        tauto
      rcases he' with he' | rfl
      · exact initSteps_no_poll env e (h4 e he')
      · rfl
  refine ⟨⟨?_, ?_⟩, hfail⟩
  · rintro ⟨e, he, hpoll⟩
    by_contra hno
    obtain ⟨pre, c, h1, -, -, h4⟩ := hfail hno
    rw [h1] at he
    have := h4 e he
    rw [this] at hpoll
    cases hpoll
  · intro hok
    refine ⟨Event.eth_rx_burst 0 0 BURST_SIZE, ?_, rfl⟩
    rw [main_state_of_init_next env fuel passes _ (main_init_of_ok env fuel hf hf3 hok)]
    exact rx_loop_first_poll env fuel (nbPorts env) passes _
      (Nat.pos_of_ne_zero hok.2.1) (by omega) hp

/-- Witness of C4: the environment in which configure is rejected on port 1. -/
theorem C4_fatal_init_failure_witness :
    nbPorts envRej < 3 ∧ 3 ≤ 3 ∧ 0 < 1
    ∧ ((∃ e ∈ (main 3 1 envRej).state, isPoll e = true) ↔ initOK envRej)
    ∧ (¬ initOK envRej →
        ∃ pre c, main 3 1 envRej = .exit 1 (pre ++ [c, Event.stderr (diagOf envRej c)])
          ∧ failed envRej c = true
          ∧ (∀ e ∈ pre, failed envRej e = false)
          ∧ (∀ e ∈ pre ++ [c, Event.stderr (diagOf envRej c)], isPoll e = false)) :=
  ⟨by decide, by decide, by decide,
    C4_fatal_init_failure envRej 3 1 (by decide) (by decide) (by decide)⟩

/-- C5 (bring-up failure across ports), as amended: with exactly two ports,
when environment init and pool creation succeed, every bring-up primitive
succeeds for port 0 and configure is rejected for port 1, the process exits
with status 1; the last primitive issued is configure on port 1, followed by
the one diagnostic of the run, which names configure and port 1.  Start has
been issued exactly once before that, for port 0; no start is issued for port 1
and no poll is issued. -/
theorem C5_port1_configure_rejected (env : Env) (fuel passes : Nat) (hf3 : 3 ≤ fuel)
    (heal : 0 ≤ env.eal_init) (hn : nbPorts env = 2) (hpool : env.pktmbuf_pool_create ≠ 0)
    (hok : portOK env 0) (hrej : env.eth_dev_configure 1 < 0) :
    ∃ pre, main fuel passes env
        = .exit 1 (pre ++ [Event.eth_dev_configure 1 NB_RXQ NB_TXQ,
            Event.stderr (Diag.configure_failed 1 (env.eth_dev_configure 1))])
      ∧ pre.filter isStart = [Event.eth_dev_start 0]
      ∧ pre.filter isStderr = []
      ∧ pre.filter isPoll = [] := by
  have hno : ¬ initOK env := by
    rintro ⟨-, -, -, h⟩
    have := (h 1 (by omega)).1
    omega
  have hmain := main_of_init_exit env fuel passes 1 _
    (main_init_of_not_ok env fuel (by omega) hf3 hno)
  obtain ⟨h1, h2, h3, h4⟩ := hok
  have h20 := h2 0 (by simp [NB_RXQ])
  have h21 := h2 1 (by simp [NB_RXQ])
  have h30 := h3 0 (by simp [NB_TXQ])
  have h31 := h3 1 (by simp [NB_TXQ])
  rw [hmain]
  simp only [initSteps, portBlock, portSteps, nameSteps, hn, NB_RXQ, NB_TXQ, List.range_succ,
    List.range_zero, List.map, List.nil_append, List.cons_append, List.map_append,
    List.flatMap_cons, List.flatMap_nil, List.append_nil, List.append_assoc, cutAtFail, failed,
    rcOf, diagOf, decide_eq_true_eq]
  simp only [not_lt.mpr heal, not_lt.mpr h1, not_lt.mpr h20, not_lt.mpr h21, not_lt.mpr h30,
    not_lt.mpr h31, not_lt.mpr h4, hrej, hpool, if_false, if_true, lt_self_iff_false,
    OfNat.ofNat_ne_zero]
  refine ⟨[Event.eal_init, Event.eth_dev_count_avail, Event.stdout (Msg.sees_ports 2),
      Event.eth_dev_get_name_by_port 0,
      Event.stdout (Msg.port_name 0 (env.eth_dev_get_name_by_port 0 == 0)),
      Event.eth_dev_get_name_by_port 1,
      Event.stdout (Msg.port_name 1 (env.eth_dev_get_name_by_port 1 == 0)),
      Event.socket_id,
      Event.pktmbuf_pool_create (calc_num_mbufs 2) MBUF_CACHE_SIZE 0
        (toU16 env.mbuf_default_buf_size) env.socket_id,
      Event.stdout (Msg.created_mempool (calc_num_mbufs 2) (toU16 env.mbuf_default_buf_size)),
      Event.eth_dev_configure 0 2 2, Event.eth_dev_socket_id 0,
      Event.eth_rx_queue_setup 0 0 RX_RING_SIZE (env.eth_dev_socket_id 0) env.pktmbuf_pool_create,
      Event.eth_rx_queue_setup 0 1 RX_RING_SIZE (env.eth_dev_socket_id 0) env.pktmbuf_pool_create,
      Event.eth_tx_queue_setup 0 0 TX_RING_SIZE (env.eth_dev_socket_id 0),
      Event.eth_tx_queue_setup 0 1 TX_RING_SIZE (env.eth_dev_socket_id 0),
      Event.eth_dev_start 0, Event.eth_promiscuous_enable 0,
      Event.stdout (Msg.port_started 0 2 2)], rfl, ?_, ?_, ?_⟩ <;>
    simp [List.filter, isStart, isStderr, isPoll]

/-- Witness of the amended C5 at the environment whose configure is rejected
on port 1. -/
theorem C5_port1_configure_rejected_witness :
    3 ≤ 3 ∧ 0 ≤ envRej.eal_init ∧ nbPorts envRej = 2 ∧ envRej.pktmbuf_pool_create ≠ 0
    ∧ portOK envRej 0 ∧ envRej.eth_dev_configure 1 < 0
    ∧ ∃ pre, main 3 1 envRej
        = .exit 1 (pre ++ [Event.eth_dev_configure 1 NB_RXQ NB_TXQ,
            Event.stderr (Diag.configure_failed 1 (envRej.eth_dev_configure 1))])
      ∧ pre.filter isStart = [Event.eth_dev_start 0]
      ∧ pre.filter isStderr = []
      ∧ pre.filter isPoll = [] :=
  ⟨by decide, by decide, by decide, by decide, by unfold portOK; decide, by decide,
    C5_port1_configure_rejected envRej 3 1 (by decide) (by decide) (by decide) (by decide)
      (by unfold portOK; decide) (by decide)⟩

/-- Counterexample to C5 as stated: with two ports, port 0 brought up and
configure rejected on port 1, it is not the case that no start is issued for
port 0 and for port 1: port 0 has been started before port 1 is configured. -/
theorem C5_counterexample :
    0 ≤ envRej.eal_init ∧ nbPorts envRej = 2 ∧ envRej.pktmbuf_pool_create ≠ 0
    ∧ portOK envRej 0 ∧ envRej.eth_dev_configure 1 < 0
    ∧ ¬ (Event.eth_dev_start 0 ∉ (main 3 1 envRej).state
          ∧ Event.eth_dev_start 1 ∉ (main 3 1 envRej).state) := by
  refine ⟨by decide, by decide, by decide, ?_, by decide, ?_⟩
  · unfold portOK; decide
  · intro h
    exact h.1 (by decide)

/-- C6 (exactly-once, in-order release): for every port count and every
assignment of poll results in which each poll of the pass supplies at most
`BURST_SIZE` handles, one pass of the receive loop completes, and the handles
it releases are exactly the batches of its polls concatenated in increasing
port order, each batch in the order supplied.  So every handle is released as
often as it was handed out: exactly once when the polls hand out distinct
buffers, and never when it was not handed out.  In the closed pool model,
when the buffers handed out are distinct and in flight, no release is a
double release and `free + in flight = N` holds after the pass. -/
theorem C6_release_exactly_once (env : Env) (fuel n k : Nat) (s : St)
    (hn : n ≤ 65535) (hfn : n < fuel) (hfb : BURST_SIZE < fuel)
    (hs : s.bufs.length = BURST_SIZE)
    (hb : ∀ p, p < n → (env.eth_rx_burst k p).length ≤ BURST_SIZE) :
    ∃ s' added, rx_pass fuel env n k s = .next s'
      ∧ s'.trace = s.trace ++ added
      ∧ releases added = handed env n k
      ∧ (∀ b, (releases added).count b = (handed env n k).count b)
      ∧ ((handed env n k).Nodup →
          ∀ b, (releases added).count b = if b ∈ handed env n k then 1 else 0)
      ∧ (∀ (a : PoolAcct) (N : Nat), a.free.length + a.inflight.length = N →
          (handed env n k).Nodup → (∀ b ∈ handed env n k, b ∈ a.inflight) →
          ∃ a', a.releaseAll (releases added) = some a'
            ∧ a'.free.length + a'.inflight.length = N) := by
  obtain ⟨s', h1, h2, -⟩ := rx_pass_eq env fuel n k s hn hfn hfb hs hb
  have hr := releases_passEvents env n k
  refine ⟨s', passEvents env n k, h1, h2, hr, ?_, ?_, ?_⟩
  · intro b; rw [hr]
  · intro hnd b
    rw [hr]
    by_cases hmem : b ∈ handed env n k
    · simp [hmem, List.count_eq_one_of_mem hnd hmem]
    · simp [hmem, List.count_eq_zero_of_not_mem hmem]
  · intro a N hN hnd hmem
    rw [hr]
    obtain ⟨a', h3, h4, -⟩ := releaseAll_ok _ a N hN hnd hmem
    exact ⟨a', h3, h4⟩

/-- Witness of C6: the first pass over the two ports of `envOK`, where port 0
supplies three buffers and port 1 none. -/
theorem C6_release_exactly_once_witness :
    2 ≤ 65535 ∧ 2 < 33 ∧ BURST_SIZE < 33 ∧ bufs0.length = BURST_SIZE
    ∧ (∀ p, p < 2 → (envOK.eth_rx_burst 0 p).length ≤ BURST_SIZE)
    ∧ ∃ s' added, rx_pass 33 envOK 2 0 { trace := [], bufs := bufs0 } = .next s'
      ∧ s'.trace = [] ++ added
      ∧ releases added = handed envOK 2 0
      ∧ (∀ b, (releases added).count b = (handed envOK 2 0).count b)
      ∧ ((handed envOK 2 0).Nodup →
          ∀ b, (releases added).count b = if b ∈ handed envOK 2 0 then 1 else 0)
      ∧ (∀ (a : PoolAcct) (N : Nat), a.free.length + a.inflight.length = N →
          (handed envOK 2 0).Nodup → (∀ b ∈ handed envOK 2 0, b ∈ a.inflight) →
          ∃ a', a.releaseAll (releases added) = some a'
            ∧ a'.free.length + a'.inflight.length = N) :=
  ⟨by decide, by decide, by decide, by decide, by decide,
    C6_release_exactly_once envOK 33 2 0 { trace := [], bufs := bufs0 }
      (by decide) (by decide) (by decide) (by decide) (by decide)⟩

/-- C7 (round-robin fairness): for every port count up to 65535 and every
assignment of poll results within the batch bound of the poll, each pass of
the receive loop terminates and issues exactly one poll per port, in the order
port 0, 1, ..., `n - 1`, each on queue 0 and for `BURST_SIZE` handles.  The
list of polls does not mention the poll results: an idle port is polled once
in every pass whatever the other ports return. -/
theorem C7_round_robin (env : Env) (fuel n k : Nat) (s : St)
    (hn : n ≤ 65535) (hfn : n < fuel) (hfb : BURST_SIZE < fuel)
    (hs : s.bufs.length = BURST_SIZE)
    (hb : ∀ p, p < n → (env.eth_rx_burst k p).length ≤ BURST_SIZE) :
    ∃ s' added, rx_pass fuel env n k s = .next s'
      ∧ s'.trace = s.trace ++ added
      ∧ s'.bufs.length = BURST_SIZE
      ∧ added.filter isPoll = (List.range n).map (fun p => Event.eth_rx_burst p 0 BURST_SIZE)
      ∧ (added.filter isPoll).length = n := by
  obtain ⟨s', h1, h2, h3⟩ := rx_pass_eq env fuel n k s hn hfn hfb hs hb
  refine ⟨s', passEvents env n k, h1, h2, h3, polls_passEvents env n k, ?_⟩
  rw [polls_passEvents]
  simp

/-- Witness of C7: a pass over the two ports of `envOK`, port 1 being idle. -/
theorem C7_round_robin_witness :
    2 ≤ 65535 ∧ 2 < 33 ∧ BURST_SIZE < 33 ∧ bufs0.length = BURST_SIZE
    ∧ (∀ p, p < 2 → (envOK.eth_rx_burst 5 p).length ≤ BURST_SIZE)
    ∧ ∃ s' added, rx_pass 33 envOK 2 5 { trace := [], bufs := bufs0 } = .next s'
      ∧ s'.trace = [] ++ added
      ∧ s'.bufs.length = BURST_SIZE
      ∧ added.filter isPoll = (List.range 2).map (fun p => Event.eth_rx_burst p 0 BURST_SIZE)
      ∧ (added.filter isPoll).length = 2 :=
  ⟨by decide, by decide, by decide, by decide, by decide,
    C7_round_robin envOK 33 2 5 { trace := [], bufs := bufs0 }
      (by decide) (by decide) (by decide) (by decide) (by decide)⟩

/-- C8 (single shared pool, created first), as amended: pool creation is
issued exactly once in every run in which environment initialization succeeds
and the port count is non-zero, and never in any other run.  When issued it
has capacity `calc_num_mbufs nb_ports` and cache size `MBUF_CACHE_SIZE`, and
no configure, queue setup or start on any port and no other pool creation
precedes it; none follows it.  In the other runs no configure, queue setup or
start is issued either.  Every receive-queue setup in the run, for every port
and queue index, carries the handle that pool creation returned; the
transmit-queue setup has no pool argument. -/
theorem C8_single_shared_pool (env : Env) (fuel passes : Nat)
    (hf : nbPorts env < fuel) (hf3 : 3 ≤ fuel) :
    (((main fuel passes env).state.filter isPoolCreate).length
        = if 0 ≤ env.eal_init ∧ nbPorts env ≠ 0 then 1 else 0)
    ∧ (0 ≤ env.eal_init → nbPorts env ≠ 0 →
        ∃ pre post, (main fuel passes env).state
            = pre ++ Event.pktmbuf_pool_create (calc_num_mbufs (nbPorts env)) MBUF_CACHE_SIZE 0
                (toU16 env.mbuf_default_buf_size) env.socket_id :: post
          ∧ (∀ e ∈ pre, isPoolCreate e = false ∧ isBringUp e = false)
          ∧ (∀ e ∈ post, isPoolCreate e = false))
    ∧ (¬ (0 ≤ env.eal_init ∧ nbPorts env ≠ 0) →
        ∀ e ∈ (main fuel passes env).state, isPoolCreate e = false ∧ isBringUp e = false)
    ∧ (∀ port q n sock pool,
        Event.eth_rx_queue_setup port q n sock pool ∈ (main fuel passes env).state →
          pool = env.pktmbuf_pool_create) := by
  obtain ⟨added, htr, hadd, hnil⟩ := main_trace env fuel passes hf hf3
  have hyes : 0 ≤ env.eal_init → nbPorts env ≠ 0 →
      ∃ pre post, (main fuel passes env).state
          = pre ++ Event.pktmbuf_pool_create (calc_num_mbufs (nbPorts env)) MBUF_CACHE_SIZE 0
              (toU16 env.mbuf_default_buf_size) env.socket_id :: post
        ∧ (∀ e ∈ pre, isPoolCreate e = false ∧ isBringUp e = false)
        ∧ (∀ e ∈ post, isPoolCreate e = false) := by
    intro h1 h2
    have hhead := initHead_props env
    obtain ⟨rest, hr1, hr2⟩ := cutAtFail_cons_exists env
      (Event.pktmbuf_pool_create (calc_num_mbufs (nbPorts env)) MBUF_CACHE_SIZE 0
        (toU16 env.mbuf_default_buf_size) env.socket_id)
      ([Event.stdout (Msg.created_mempool (calc_num_mbufs (nbPorts env))
          (toU16 env.mbuf_default_buf_size))]
        ++ (List.range (nbPorts env)).flatMap (portBlock env env.pktmbuf_pool_create)
        ++ [Event.lcore_id, Event.stdout (Msg.entering_rx_loop env.lcore_id)])
    refine ⟨_, rest ++ added, ?_, fun e he => ⟨(hhead e he).1, (hhead e he).2.1⟩, ?_⟩
    · rw [htr, initSteps_split,
        cutAtFail_append_of_ok env _ _ (fun e he => (hhead e he).2.2 h1 h2), hr1]
      simp
    · intro e he
      rcases List.mem_append.mp he with he | he
      · rcases hr2 e he with h | h
        · exact initTail_no_pool_create env e h
        · exact (isStderr_not_init e h).1
      · exact (isRxLoopEvent_not_init e (hadd e he)).1
  have hno : ¬ (0 ≤ env.eal_init ∧ nbPorts env ≠ 0) →
      ∀ e ∈ (main fuel passes env).state, isPoolCreate e = false ∧ isBringUp e = false := by
    intro h e he
    have hnok : ¬ initOK env := fun hok => h ⟨hok.1, hok.2.1⟩
    rw [htr, hnil hnok, List.append_nil] at he
    by_cases h1 : env.eal_init < 0
    · simp only [initSteps, List.cons_append, List.append_assoc, cutAtFail, failed, h1,
        decide_True, if_true, List.mem_cons, List.mem_singleton, List.not_mem_nil,
        or_false] at he
      rcases he with rfl | rfl <;> exact ⟨rfl, rfl⟩
    · have h2 : nbPorts env = 0 := by
        by_contra h2
        exact h ⟨not_lt.mp h1, h2⟩
      simp only [initSteps, List.cons_append, List.append_assoc, cutAtFail, failed, h1, h2,
        decide_True, decide_False, Bool.false_eq_true, if_true, if_false, List.mem_cons,
        List.mem_singleton, List.not_mem_nil, or_false] at he
      rcases he with rfl | rfl | rfl <;> exact ⟨rfl, rfl⟩
  refine ⟨?_, hyes, hno, ?_⟩
  · by_cases h : 0 ≤ env.eal_init ∧ nbPorts env ≠ 0
    · obtain ⟨pre, post, h1, h2, h3⟩ := hyes h.1 h.2
      rw [if_pos h, h1, List.filter_append, List.filter_cons,
        List.filter_eq_nil_iff.mpr (fun e he => by simp [(h2 e he).1]),
        List.filter_eq_nil_iff.mpr (fun e he => by simp [h3 e he])]
      simp [isPoolCreate]
    · rw [if_neg h, List.length_eq_zero,
        List.filter_eq_nil_iff.mpr (fun e he => by simp [(hno h e he).1])]
  · intro port q n sock pool hmem
    rw [htr] at hmem
    rcases List.mem_append.mp hmem with hmem | hmem
    · rcases mem_cutAtFail env _ _ hmem with h | h
      · exact rx_setup_pool_of_mem_initSteps env port q n sock pool h
      · simp [isStderr] at h
    · have := hadd _ hmem
      simp [isRxLoopEvent] at this

/-- Witness of the amended C8: the run of `envOK` through two passes. -/
theorem C8_single_shared_pool_witness :
    nbPorts envOK < 33 ∧ 3 ≤ 33
    ∧ (((main 33 2 envOK).state.filter isPoolCreate).length
        = if 0 ≤ envOK.eal_init ∧ nbPorts envOK ≠ 0 then 1 else 0)
    ∧ (0 ≤ envOK.eal_init → nbPorts envOK ≠ 0 →
        ∃ pre post, (main 33 2 envOK).state
            = pre ++ Event.pktmbuf_pool_create (calc_num_mbufs (nbPorts envOK)) MBUF_CACHE_SIZE 0
                (toU16 envOK.mbuf_default_buf_size) envOK.socket_id :: post
          ∧ (∀ e ∈ pre, isPoolCreate e = false ∧ isBringUp e = false)
          ∧ (∀ e ∈ post, isPoolCreate e = false))
    ∧ (¬ (0 ≤ envOK.eal_init ∧ nbPorts envOK ≠ 0) →
        ∀ e ∈ (main 33 2 envOK).state, isPoolCreate e = false ∧ isBringUp e = false)
    ∧ (∀ port q n sock pool,
        Event.eth_rx_queue_setup port q n sock pool ∈ (main 33 2 envOK).state →
          pool = envOK.pktmbuf_pool_create) :=
  ⟨by decide, by decide, C8_single_shared_pool envOK 33 2 (by decide) (by decide)⟩

/-- Counterexample to C8 as stated: in the run in which environment
initialization fails, pool creation is not issued exactly once; it is never
issued. -/
theorem C8_counterexample :
    ¬ (((main 3 1 envNoEal).state.filter isPoolCreate).length = 1) := by
  decide

/-- C9 (cancellation), as amended: the receive loop reads no stop signal; its
condition is the constant `true`.  On every input on which initialization
succeeds and the polls keep to the batch bound, the program is still running
after any number of passes: it has issued one poll per port and pass and has
released every handle these polls supplied, in order.  On no input and for no
loop budget does `main` return from the loop, that is, terminate with
status 0. -/
theorem C9_no_cancellation (env : Env) (fuel passes : Nat) (hf : nbPorts env < fuel)
    (hfb : BURST_SIZE < fuel) (hok : initOK env)
    (hb : ∀ k p, p < nbPorts env → (env.eth_rx_burst k p).length ≤ BURST_SIZE) :
    (∃ tr, main fuel passes env = .timeout tr
      ∧ (tr.filter isPoll).length = passes * nbPorts env
      ∧ releases tr = (List.range passes).flatMap (handed env (nbPorts env)))
    ∧ (∀ (env' : Env) (fuel' passes' : Nat) (tr : List Event),
        main fuel' passes' env' ≠ .exit 0 tr) := by
  refine ⟨⟨_, main_running env fuel passes hf hfb hok hb, ?_, ?_⟩,
    fun env' fuel' passes' tr => main_ne_exit_zero env' fuel' passes' tr⟩
  · rw [List.filter_append, List.length_append, polls_passes,
      List.filter_eq_nil_iff.mpr (fun e he => by simp [initSteps_no_poll env e he])]
    simp
  · rw [releases_append, releases_passes, releases_eq_nil _ (initSteps_no_loop_event env)]
    simp

/-- Witness of the amended C9: `envOK` after three passes. -/
theorem C9_no_cancellation_witness :
    nbPorts envOK < 33 ∧ BURST_SIZE < 33 ∧ initOK envOK
    ∧ (∀ k p, p < nbPorts envOK → (envOK.eth_rx_burst k p).length ≤ BURST_SIZE)
    ∧ (∃ tr, main 33 3 envOK = .timeout tr
      ∧ (tr.filter isPoll).length = 3 * nbPorts envOK
      ∧ releases tr = (List.range 3).flatMap (handed envOK (nbPorts envOK)))
    ∧ (∀ (env' : Env) (fuel' passes' : Nat) (tr : List Event),
        main fuel' passes' env' ≠ .exit 0 tr) :=
  ⟨by decide, by decide, by unfold initOK portOK; decide,
    fun k p _ => by simp only [envOK, BURST_SIZE]; split <;> simp,
    C9_no_cancellation envOK 33 3 (by decide) (by decide) (by unfold initOK portOK; decide)
      (fun k p _ => by simp only [envOK, BURST_SIZE]; split <;> simp)⟩

/-- Counterexample to C9 as stated: there is no input and no loop budget for
which the receive loop terminates and `main` returns. -/
theorem C9_counterexample :
    ¬ ∃ (env : Env) (fuel passes : Nat) (tr : List Event),
        main fuel passes env = .exit 0 tr := by
  rintro ⟨env, fuel, passes, tr, h⟩
  exact main_ne_exit_zero env fuel passes tr h

/-- C10 (batch bound and index safety): `BURST_SIZE` is 32 and is the capacity
of the handle array; every poll the per-port step issues, on any input, is on
queue 0 for `BURST_SIZE` handles.  When the array has its capacity and the poll
supplies at most `BURST_SIZE` handles, the step completes without a fault and
within the budget: every index `i` below the batch length is below
`BURST_SIZE`, the slot read there holds handle `i` of the batch, and
the lookup cannot take the out-of-bounds branch; the step releases the batch in
order; an empty batch gives no read and no release and leaves the array as it
was. -/
theorem C10_batch_bound (env : Env) (fuel k p : Nat) (s : St) :
    (BURST_SIZE = 32 ∧ bufs0.length = BURST_SIZE
      ∧ ∀ port q n, Event.eth_rx_burst port q n ∈ (rx_port fuel env k p s).state.trace →
          Event.eth_rx_burst port q n ∈ s.trace ∨ (q = 0 ∧ n = BURST_SIZE))
    ∧ (s.bufs.length = BURST_SIZE → (env.eth_rx_burst k p).length ≤ BURST_SIZE →
        BURST_SIZE < fuel →
        ∃ s', rx_port fuel env k p s = .next s'
          ∧ s'.trace = s.trace ++ Event.eth_rx_burst p 0 BURST_SIZE
              :: (env.eth_rx_burst k p).map Event.pktmbuf_free
          ∧ s'.bufs.length = BURST_SIZE
          ∧ (∀ i, i < (env.eth_rx_burst k p).length →
              i < BURST_SIZE ∧ s'.bufs[i]? = some (some ((env.eth_rx_burst k p).getD i 0))
              ∧ ∀ s1 : St, s1.bufs = s'.bufs → ∀ s2, rx_free i s1 ≠ .fault s2)
          ∧ (env.eth_rx_burst k p = [] →
              s'.trace = s.trace ++ [Event.eth_rx_burst p 0 BURST_SIZE]
              ∧ s'.bufs = s.bufs)) := by
  refine ⟨⟨rfl, by simp [bufs0], ?_⟩, ?_⟩
  · intro port q n hmem
    obtain ⟨added, h1, h2⟩ := rx_port_grows isRxLoopEvent (fun _ => rfl)
      (fun _ => by simp [isRxLoopEvent]) env fuel k s.trace p s (Grows_refl _ s)
    rw [h1] at hmem
    rcases List.mem_append.mp hmem with h | h
    · exact Or.inl h
    · have := h2 _ h
      simp only [isRxLoopEvent, Bool.and_eq_true, beq_iff_eq] at this
      exact Or.inr this
  · intro hs hb hf
    refine ⟨_, rx_port_eq env fuel k p s (by omega)
      (by rw [hs]; simp [BURST_SIZE]) (by omega), rfl, ?_, ?_, ?_⟩
    · simp [storeBatch_length, hs]
    · intro i hi
      have hget := storeBatch_get (env.eth_rx_burst k p) s.bufs i hi (by omega)
      refine ⟨by omega, hget, ?_⟩
      intro s1 hs1 s2
      simp only [rx_free, hs1, hget]
      simp
    · intro h0
      simp only [portEvents, h0, List.map_nil, true_and]
      simp [storeBatch]

/-- Witness of C10: the step on port 0 of `envOK` in the first pass, with
three handles supplied. -/
theorem C10_batch_bound_witness :
    bufs0.length = BURST_SIZE ∧ (envOK.eth_rx_burst 0 0).length ≤ BURST_SIZE ∧ BURST_SIZE < 33
    ∧ ∃ s', rx_port 33 envOK 0 0 { trace := [], bufs := bufs0 } = .next s'
      ∧ s'.trace = [] ++ Event.eth_rx_burst 0 0 BURST_SIZE
          :: (envOK.eth_rx_burst 0 0).map Event.pktmbuf_free
      ∧ s'.bufs.length = BURST_SIZE
      ∧ (∀ i, i < (envOK.eth_rx_burst 0 0).length →
          i < BURST_SIZE ∧ s'.bufs[i]? = some (some ((envOK.eth_rx_burst 0 0).getD i 0))
          ∧ ∀ s1 : St, s1.bufs = s'.bufs → ∀ s2, rx_free i s1 ≠ .fault s2)
      ∧ (envOK.eth_rx_burst 0 0 = [] →
          s'.trace = [] ++ [Event.eth_rx_burst 0 0 BURST_SIZE]
          ∧ s'.bufs = bufs0) :=
  ⟨by decide, by decide, by decide,
    (C10_batch_bound envOK 33 0 0 { trace := [], bufs := bufs0 }).2
      (by decide) (by decide) (by decide)⟩

end FastPath
